import Mathlib

/-!
Shallow embedding of the DendroPy core under verification:
`dendropy/datamodel/taxonmodel.py` (taxon namespace, accession indices,
bitmasks) and `dendropy/dataio/nexml.py` (NEXML tree and character-matrix
parsing and writing).

Python dictionaries are modelled as association lists with key-based lookup
(`Dict`); dict assignment replaces the value of the first matching key in
place or appends, and `pop` removes the first matching entry — lookups and
membership are iteration-order independent.  Where the Python 2 code
*iterates* a dict (`edges.values()` in `parse_trees`), iteration follows the
CPython 2.7 hash-table slot order, modelled faithfully by `py2StrHash` /
`py2Dict` / `py2Values` below.  Python object identity
for `Taxon` (whose `__eq__`/`__hash__` are identity-based) is modelled by an
explicit numeric identity handle `tid`, following the spec's own modelling
note (an opaque handle with the namespace as owning arena).  Exceptions are
modelled by `Except` with a structured error type whose constructors carry
exactly the values interpolated into the corresponding Python messages.
-/

namespace DendroPy

/-- Association-list model of a Python `dict`: entries in insertion order. -/
abbrev Dict (K V : Type) := List (K × V)

/-- `d[k]` lookup: first entry with matching key. -/
def Dict.lookup {K V : Type} [DecidableEq K] (m : Dict K V) (k : K) : Option V :=
  match m with
  | [] => none
  | (k', v) :: rest => if k' = k then some v else Dict.lookup rest k

/-- `d[k] = v`: replace the value of an existing key in place, else append. -/
def Dict.insert {K V : Type} [DecidableEq K] (m : Dict K V) (k : K) (v : V) : Dict K V :=
  match m with
  | [] => [(k, v)]
  | (k', v') :: rest =>
    if k' = k then (k, v) :: rest else (k', v') :: Dict.insert rest k v

/-- `d.pop(k, None)`: value of the first entry with key `k` (if any) and the
dict with that entry removed. -/
def Dict.pop {K V : Type} [DecidableEq K] (m : Dict K V) (k : K) :
    Option V × Dict K V :=
  match m with
  | [] => (none, [])
  | (k', v') :: rest =>
    if k' = k then (some v', rest)
    else
      let r := Dict.pop rest k
      (r.1, (k', v') :: r.2)

/-- Keys of the dict in insertion order. -/
def Dict.keys {K V : Type} (m : Dict K V) : List K := m.map Prod.fst

/-- The dict invariant of Python dicts: every key occurs at most once. -/
def Dict.NodupKeys {K V : Type} (m : Dict K V) : Prop := m.keys.Nodup

/-! ### CPython 2.7 dict iteration order

`nexml.py` is Python 2 source (`except KeyError, e`, `cStringIO`,
`xrange`), and a CPython 2 plain dict iterates in hash-table slot order,
not insertion order.  Lookups and membership are order-independent, so the
association-list `Dict` above models them; but where the code *iterates* a
dict (`edges.values()` in `parse_trees`), the iteration order is the open
addressing table's.  The model below is CPython 2.7's string-keyed dict
(64-bit unrandomized build, ASCII keys, insert-only — exactly the dicts
iterated here): `string_hash`, `lookdict`'s probe sequence, `insertdict`'s
resize trigger and `dictresize`. -/

/-- The byte loop of CPython 2.7 `string_hash`: `x = (1000003*x) ^ byte`,
on the unsigned 64-bit bit pattern. -/
def py2StrHashLoop : List Char → Nat → Nat
  | [], x => x
  | c :: cs, x => py2StrHashLoop cs (((1000003 * x) % 2 ^ 64) ^^^ c.toNat)

/-- CPython 2.7 `string_hash` (64-bit, unrandomized): `x = s[0] << 7`, then
the byte loop, then `x ^= len(s)`, with the reserved value `-1` mapped to
`-2`; the keys hashed in this file are ASCII, so a character's code point
is its byte. -/
def py2StrHash (s : String) : Nat :=
  match s.toList with
  | [] => 0
  | c :: cs =>
    let x := py2StrHashLoop (c :: cs) ((c.toNat <<< 7) % 2 ^ 64)
    let x := x ^^^ (c :: cs).length
    if x = 2 ^ 64 - 1 then 2 ^ 64 - 2 else x

/-- CPython 2.7's open-addressing probe for the slot of `k`: start at
`hash & mask`, step `i = (5*i + 1 + perturb) & mask` with `perturb`
(initially the full hash) shifted right by 5 each step, until an empty slot
or the key itself is found (the tables here are insert-only: no dummies).
After 13 steps `perturb` is zero and the step is a full-period LCG on the
power-of-two table, so `13 + size` steps always reach an empty slot when
one exists; the fuel is then never exhausted. -/
def py2Probe {V : Type} (table : List (Option (String × V))) (k : String) :
    Nat → Nat → Nat → Option Nat
  | 0, _, _ => none
  | fuel + 1, i, perturb =>
    match table.get? i with
    | none => none
    | some none => some i
    | some (some (k', _)) =>
      if k' = k then some i
      else py2Probe table k fuel ((5 * i + 1 + perturb) % table.length)
        (perturb >>> 5)

/-- Place `(k, v)` in its probed slot (a fresh key goes to the first empty
slot of its probe sequence; an existing key is overwritten in place). -/
def py2SetItem {V : Type} (table : List (Option (String × V))) (k : String)
    (v : V) : List (Option (String × V)) :=
  let h := py2StrHash k
  match py2Probe table k (13 + table.length) (h % table.length) h with
  | some i => table.set i (some (k, v))
  | none => table

/-- The number of occupied slots (`ma_used`; equal to `ma_fill` on an
insert-only table). -/
def py2Used {V : Type} (table : List (Option (String × V))) : Nat :=
  (table.filterMap id).length

/-- `dictresize`'s size loop: the smallest power of two greater than
`minused`, starting from `PyDict_MINSIZE = 8`. -/
def py2NewSizeGo (minused : Nat) : Nat → Nat → Nat
  | sz, 0 => sz
  | sz, fuel + 1 => if sz ≤ minused then py2NewSizeGo minused (2 * sz) fuel else sz

/-- The new table size chosen by `dictresize(mp, minused)`. -/
def py2NewSize (minused : Nat) : Nat :=
  py2NewSizeGo minused 8 (minused + 1)

/-- `dictresize`: rebuild into a fresh table of size `py2NewSize (4*used)`
(the `used <= 50000` branch) by reinserting the occupied slots in slot
order. -/
def py2Resize {V : Type} (table : List (Option (String × V))) :
    List (Option (String × V)) :=
  let entries := table.filterMap id
  entries.foldl (fun t kv => py2SetItem t kv.1 kv.2)
    (List.replicate (py2NewSize (4 * entries.length)) none)

/-- `PyDict_SetItem` (`insertdict` + the resize trigger): place the entry,
then resize when a new key brought the fill to at least two thirds
(`ma_fill*3 >= (ma_mask+1)*2`). -/
def py2DictSetItem {V : Type} (table : List (Option (String × V))) (k : String)
    (v : V) : List (Option (String × V)) :=
  let isNew := (table.filterMap id).all fun kv => !(kv.1 == k)
  let t2 := py2SetItem table k v
  if isNew && decide (py2Used t2 * 3 ≥ t2.length * 2) then py2Resize t2 else t2

/-- The CPython 2.7 hash table holding the given insertion sequence,
starting from the fresh 8-slot table. -/
def py2Dict {V : Type} (entries : List (String × V)) :
    List (Option (String × V)) :=
  entries.foldl (fun t kv => py2DictSetItem t kv.1 kv.2) (List.replicate 8 none)

/-- `d.values()` of a CPython 2 string-keyed dict: the values in hash-table
slot order (NOT insertion order). -/
def py2Values {V : Type} (m : Dict String V) : List V :=
  (py2Dict m).filterMap fun s => s.map Prod.snd

/-- Structured model of the Python exceptions raised by the embedded code.
Each constructor carries exactly the values interpolated into the
corresponding message format string in the source. -/
inductive PyErr where
  /-- `error.ImmutableTaxonNamespaceError("Taxon '{}' cannot be added ...")`
  (`taxonmodel.py`, `add_taxon`); carries the taxon label. -/
  | immutableTaxonNamespaceError (label : String)
  /-- `ValueError(taxon)` (`taxonmodel.py`, `remove_taxon`). -/
  | valueErrorTaxon (label : String)
  /-- An uncaught `KeyError` from an unguarded dict subscript; carries a
  rendering of the missing key. -/
  | keyError (key : String)
  /-- An uncaught `ValueError` from `int(...)`/`float(...)` on a string that
  is not a literal of that type; carries the offending string only. -/
  | valueErrorLiteral (s : String)
  /-- An uncaught `IndexError` from an unguarded list subscript. -/
  | indexError
  /-- An uncaught `AttributeError`: `'str' object has no attribute 'oid'`,
  from `[n.oid for n in nodes]` iterating dict *keys* (`nexml.py`,
  `parse_trees`). -/
  | strHasNoAttrOid
  /-- `Exception('Edge %d ("%s") does not have a source')` (`parse_edges`). -/
  | edgeNoSource (counter : Nat) (oid : String)
  /-- `Exception('Edge %d ("%s") does not have a target')` (`parse_edges`). -/
  | edgeNoTarget (counter : Nat) (oid : String)
  /-- `Exception('Edge %d ("%s") `length` attribute is not a %s')`
  (`parse_edges`, inside the `try`/`except`). -/
  | edgeLengthNotType (counter : Nat) (oid : String) (typeName : String)
  /-- `Exception('Edge "%s" `length` attribute is not a %s')`
  (`parse_root_edge`). -/
  | rootEdgeLengthNotType (oid : String) (typeName : String)
  /-- `Exception('Edge "%s" specifies a non-defined source node ("%s")...')`
  (`parse_trees`); carries edge id, the unresolved source id, and the joined
  node keys of the message tail. -/
  | edgeUndefinedSource (edgeOid : String) (sourceId : Option String)
      (nodeKeys : List (Option String))
  /-- `Exception('Edge "%s" specifies a non-defined target node ("%s")...')`
  (`parse_trees`); only reachable when the node dict is empty, since the
  message tail `','.join([n.oid for n in nodes])` otherwise raises
  `AttributeError` (see `strHasNoAttrOid`). -/
  | edgeUndefinedTarget (edgeOid : String) (targetId : Option String)
  /-- `Exception("Structural error: tree must be acyclic.")` (`parse_trees`). -/
  | notAcyclic
  /-- `Exception('Taxon with id "%s" not defined in taxa block "%s"')`
  (`parse_nodes`). -/
  | taxonNotDefined (taxonId : Option String) (taxaBlock : Option String)
  /-- Generic `Exception(msg)` with a fixed message. -/
  | exceptionMsg (msg : String)
  /-- Uncaught `UnboundLocalError` (`parse_char_matrix`: the
  `NotImplementedError` for an unrecognized `xsi:type` interpolates
  `char_matrix.oid`, but `char_matrix` is only assigned in the recognized
  branches, so building the message raises
  `UnboundLocalError("local variable '%s' referenced before assignment")`
  first); carries the variable name. -/
  | unboundLocalError (varName : String)
  /-- Uncaught `AttributeError` from calling a method/attribute on `None`. -/
  | noneHasNoAttr (attr : String)
  /-- `error.DataParseError('... Taxon with id "%s" not defined ...')`
  (`parse_char_matrix`, row loop). -/
  | rowTaxonNotDefined (matrixOid : Option String) (matrixLabel : Option String)
      (taxonId : Option String) (taxaBlock : Option String)
  /-- `error.DataParseError("Character column/type ('<char>') not defined for
  character in position %d (matrix = '%s' row='%s', taxon='%s')")`
  (`parse_char_matrix`, sequence mode). -/
  | columnNotDefined (pos : Nat) (matrixOid : Option String)
      (rowId : Option String) (taxonLabel : Option String)
  /-- `error.DataParseError("Character Block '%s', row '%s', character
  position %s: State with symbol '%s' in sequence '%s' not defined")`
  (`parse_char_matrix`, sequence mode).  Note: the format interpolates the
  matrix oid, row id, position, symbol and sequence — not the taxon. -/
  | symbolNotDefined (matrixOid : Option String) (rowId : Option String)
      (pos : Nat) (symbol : Char) (seq : String)
  /-- `error.DataParseError("'char' attribute missing for cell ...")`
  (`parse_char_matrix`, cell mode). -/
  | cellCharMissing (matrixOid : Option String) (rowId : Option String)
      (taxonLabel : Option String)
  /-- `error.DataParseError("Character type ('<char>') with id '%s'
  referenced but not found ...")` (`parse_char_matrix`, cell mode). -/
  | cellCharNotFound (charId : String) (matrixOid : Option String)
      (rowId : Option String) (taxonLabel : Option String)
  /-- `Exception("State set '%s' not defined")` (`parse_characters_format`). -/
  | stateSetNotDefined (stateSetId : String)
  /-- Fatal unresolved member-state reference inside a state alphabet
  (spec §4.5: "Member-state references that do not resolve within the
  alphabet are a fatal error"). -/
  | memberStateNotFound (stateId : Option String)
  /-- `TypeError` raised by the writer (missing symbol, unmappable cell,
  or alphabet-resolution failure); carries the values interpolated. -/
  | writerTypeError (detail : List String)
  /-- `Exception` raised by the writer for a missing mandatory id. -/
  | writerMissingId (what : String)
deriving DecidableEq, Repr

deriving instance DecidableEq for Except

/-- Little-endian decimal digits with structural fuel (`digitsRevF n n`
computes the digits of `n`); the fuel makes the definition kernel-reducible. -/
def digitsRevF : Nat → Nat → List Nat
  | _, 0 => []
  | 0, _ + 1 => []
  | f + 1, n + 1 => (n + 1) % 10 :: digitsRevF f ((n + 1) / 10)

/-- Little-endian decimal digits of `n` (empty for 0). -/
def digitsRev (n : Nat) : List Nat := digitsRevF n n

/-- Value of a little-endian digit list. -/
def ofDigitsRev : List Nat → Nat
  | [] => 0
  | d :: rest => d + 10 * ofDigitsRev rest

/-- The ASCII digit character of `d` (for `d < 10`). -/
def digitChar48 (d : Nat) : Char := Char.ofNat (48 + d)

/-- Python decimal rendering of a natural number (`str(n)` / `'%d' % n`). -/
def natStr (n : Nat) : String :=
  if n = 0 then "0" else String.mk ((digitsRev n).reverse.map digitChar48)

/-- Python decimal rendering of an integer. -/
def intStr (i : Int) : String :=
  if i < 0 then "-" ++ natStr i.natAbs else natStr i.natAbs

/-- Python `str(x)` for an optional string: `None` prints as `"None"`. -/
def pyStrOpt (s : Option String) : String :=
  match s with
  | some v => v
  | none => "None"

/-- The list of Python values interpolated into the message of an error, in
format-string order, each rendered with `str`.  Used to state which
identifiers an error message "names". -/
def PyErr.named : PyErr → List String
  | .immutableTaxonNamespaceError label => [label]
  | .valueErrorTaxon label => [label]
  | .keyError key => [key]
  | .valueErrorLiteral s => [s]
  | .indexError => []
  | .strHasNoAttrOid => []
  | .edgeNoSource counter oid => [natStr counter, oid]
  | .edgeNoTarget counter oid => [natStr counter, oid]
  | .edgeLengthNotType counter oid typeName => [natStr counter, oid, typeName]
  | .rootEdgeLengthNotType oid typeName => [oid, typeName]
  | .edgeUndefinedSource edgeOid sourceId nodeKeys =>
      [edgeOid, pyStrOpt sourceId] ++ nodeKeys.map pyStrOpt
  | .edgeUndefinedTarget edgeOid targetId => [edgeOid, pyStrOpt targetId]
  | .notAcyclic => []
  | .taxonNotDefined taxonId taxaBlock => [pyStrOpt taxonId, pyStrOpt taxaBlock]
  | .exceptionMsg msg => [msg]
  | .unboundLocalError varName => [varName]
  | .noneHasNoAttr attr => [attr]
  | .rowTaxonNotDefined mo ml tid tb =>
      [pyStrOpt mo, pyStrOpt ml, pyStrOpt tid, pyStrOpt tb]
  | .columnNotDefined pos mo rid tl =>
      [natStr pos, pyStrOpt mo, pyStrOpt rid, pyStrOpt tl]
  | .symbolNotDefined mo rid pos sym seq =>
      [pyStrOpt mo, pyStrOpt rid, natStr pos, sym.toString, seq]
  | .cellCharMissing mo rid tl => [pyStrOpt mo, pyStrOpt rid, pyStrOpt tl]
  | .cellCharNotFound cid mo rid tl => [cid, pyStrOpt mo, pyStrOpt rid, pyStrOpt tl]
  | .stateSetNotDefined sid => [sid]
  | .memberStateNotFound sid => [pyStrOpt sid]
  | .writerTypeError detail => detail
  | .writerMissingId what => [what]

/-! ## Taxon and TaxonNamespace (`dendropy/datamodel/taxonmodel.py`) -/

/-- A `Taxon`.  Python `Taxon.__eq__`/`__hash__` are object identity
(`self is other` / `id(self)`); the numeric handle `tid` models that
identity, per the spec's modelling note (§9). -/
structure Taxon where
  tid : Nat
  label : String
deriving DecidableEq, Repr

/-- The registry state of a `TaxonNamespace`: the ordered taxon list
`_taxa`, the accession-index→taxon map, the taxon→accession-index map
(keyed by taxon identity), the bitmask cache keyed by taxon identity, the
running accession counter, and the mutability flag. -/
structure TaxonNamespace where
  taxa : List Taxon
  accessionIndexTaxonMap : Dict Nat Taxon
  taxonAccessionIndexMap : Dict Nat Nat
  taxonBitmaskMap : Dict Nat Nat
  currentAccessionCount : Nat
  isMutable : Bool
deriving DecidableEq, Repr

/-- A fresh `TaxonNamespace()`: empty maps, counter 0, mutable. -/
def TaxonNamespace.empty : TaxonNamespace :=
  { taxa := []
    accessionIndexTaxonMap := []
    taxonAccessionIndexMap := []
    taxonBitmaskMap := []
    currentAccessionCount := 0
    isMutable := true }

/-- `TaxonNamespace.__contains__`: membership in `_taxon_accession_index_map`. -/
def TaxonNamespace.containsTaxon (ns : TaxonNamespace) (t : Taxon) : Bool :=
  (ns.taxonAccessionIndexMap.lookup t.tid).isSome

/-- `TaxonNamespace.add_taxon`: no-op if already registered (identity
membership in `_taxon_accession_index_map`); `ImmutableTaxonNamespaceError`
if the namespace is not mutable; otherwise append to `_taxa`, record the
accession index in both maps, and increment `_current_accession_count`. -/
def TaxonNamespace.add_taxon (ns : TaxonNamespace) (t : Taxon) :
    Except PyErr TaxonNamespace :=
  if (ns.taxonAccessionIndexMap.lookup t.tid).isSome then
    .ok ns
  else if !ns.isMutable then
    .error (.immutableTaxonNamespaceError t.label)
  else
    .ok { taxa := ns.taxa ++ [t]
          accessionIndexTaxonMap :=
            ns.accessionIndexTaxonMap.insert ns.currentAccessionCount t
          taxonAccessionIndexMap :=
            ns.taxonAccessionIndexMap.insert t.tid ns.currentAccessionCount
          taxonBitmaskMap := ns.taxonBitmaskMap
          currentAccessionCount := ns.currentAccessionCount + 1
          isMutable := ns.isMutable }

/-- `TaxonNamespace.remove_taxon`: `ValueError` if `taxon` is not in
`_taxa` (identity membership); otherwise remove every occurrence from
`_taxa` (the `remove` call followed by the `while ... remove` loop), pop the
accession-index entry from `_taxon_accession_index_map` and, if it was
present, also pop `_accession_index_taxon_map[idx]` and (redundantly)
`_taxon_accession_index_map[taxon]` again; then pop the bitmask-cache entry
and, if it was present, again (redundantly) pop
`_taxon_accession_index_map[taxon]`.  The accession counter is untouched. -/
def TaxonNamespace.remove_taxon (ns : TaxonNamespace) (t : Taxon) :
    Except PyErr TaxonNamespace :=
  if !(ns.taxa.any fun x => x.tid = t.tid) then
    .error (.valueErrorTaxon t.label)
  else
    let taxa' := ns.taxa.filter fun x => x.tid ≠ t.tid
    let p1 := ns.taxonAccessionIndexMap.pop t.tid
    let aitm' :=
      match p1.1 with
      | some idx => (ns.accessionIndexTaxonMap.pop idx).2
      | none => ns.accessionIndexTaxonMap
    let tam2 :=
      match p1.1 with
      | some _ => (p1.2.pop t.tid).2
      | none => p1.2
    let p2 := ns.taxonBitmaskMap.pop t.tid
    let tam3 :=
      match p2.1 with
      | some _ => (tam2.pop t.tid).2
      | none => tam2
    .ok { taxa := taxa'
          accessionIndexTaxonMap := aitm'
          taxonAccessionIndexMap := tam3
          taxonBitmaskMap := p2.2
          currentAccessionCount := ns.currentAccessionCount
          isMutable := ns.isMutable }

/-- `TaxonNamespace.all_taxa_bitmask`: `(1 << _current_accession_count) - 1`. -/
def TaxonNamespace.all_taxa_bitmask (ns : TaxonNamespace) : Nat :=
  let b := 1 <<< ns.currentAccessionCount
  b - 1

/-- `TaxonNamespace.taxon_bitmask`: return the cached bitmask if present;
otherwise compute `1 << accession_index`, cache it, and return it (an
unregistered taxon raises `KeyError` from the accession-map subscript).
Returns the value together with the (possibly updated) namespace state. -/
def TaxonNamespace.taxon_bitmask (ns : TaxonNamespace) (t : Taxon) :
    Except PyErr (Nat × TaxonNamespace) :=
  match ns.taxonBitmaskMap.lookup t.tid with
  | some m => .ok (m, ns)
  | none =>
    match ns.taxonAccessionIndexMap.lookup t.tid with
    | none => .error (.keyError t.label)
    | some i =>
      let m := 1 <<< i
      .ok (m, { ns with taxonBitmaskMap := ns.taxonBitmaskMap.insert t.tid m })

/-- `TaxonNamespace.accession_index`: unguarded subscript of
`_taxon_accession_index_map` (raises `KeyError` if unregistered). -/
def TaxonNamespace.accession_index (ns : TaxonNamespace) (t : Taxon) :
    Except PyErr Nat :=
  match ns.taxonAccessionIndexMap.lookup t.tid with
  | some i => .ok i
  | none => .error (.keyError t.label)

/-- `TaxonNamespace.bitmask_taxa_list`: walk the set bits of `bitmask` from
`index` upward, subscripting `_accession_index_taxon_map` unguarded for each
set bit (raising `KeyError` when the index has no registered taxon), and
collect the taxa in low-to-high bit order. -/
def TaxonNamespace.bitmask_taxa_list (ns : TaxonNamespace) (bitmask : Nat)
    (index : Nat) : Except PyErr (List Taxon) :=
  if h : bitmask = 0 then
    .ok []
  else
    if bitmask % 2 = 1 then
      match ns.accessionIndexTaxonMap.lookup index with
      | none => .error (.keyError (natStr index))
      | some t =>
        match ns.bitmask_taxa_list (bitmask >>> 1) (index + 1) with
        | .ok rest => .ok (t :: rest)
        | .error e => .error e
    else
      ns.bitmask_taxa_list (bitmask >>> 1) (index + 1)
termination_by bitmask
decreasing_by
  all_goals
    simp only [Nat.shiftRight_succ, Nat.shiftRight_zero]
    exact Nat.div_lt_self (Nat.pos_of_ne_zero h) one_lt_two

/-- Coherence of the bitmask cache: every cached entry is `1 <<<` the
taxon's current accession index.  This holds in every state reachable by
the `TaxonNamespace` operations (the cache is only written by
`taxon_bitmask` itself). -/
def TaxonNamespace.BitmaskCacheCoherent (ns : TaxonNamespace) : Prop :=
  ∀ tid m, ns.taxonBitmaskMap.lookup tid = some m →
    ∃ i, ns.taxonAccessionIndexMap.lookup tid = some i ∧ m = 1 <<< i

/-! ## Python numeric-literal conversion (`int(...)` / `float(...)`)

Edge lengths are converted with the Python builtins `int` and `float`
(selected by `_from_nexml_tree_length_type`).  Float *values* are never
computed with by the embedded code, so a float is modelled by its literal
string.  The recognizers below model the builtins' literal grammar
(optional surrounding whitespace, optional sign, digits for `int`;
digits with optional fraction and exponent for `float`; the special
`inf`/`nan` spellings are not modelled). -/

/-- Python `str.strip()` whitespace test. -/
def isPySpace (c : Char) : Bool :=
  c == ' ' || c == '\t' || c == '\n' || c == '\r' || c.toNat == 11 || c.toNat == 12

/-- Strip leading and trailing whitespace from a char list. -/
def pyTrimChars (cs : List Char) : List Char :=
  ((cs.dropWhile isPySpace).reverse.dropWhile isPySpace).reverse

/-- Python `s.strip()` (the whitespace strip the numeric conversions
apply); implemented on the character list so that it kernel-reduces. -/
def pyTrim (s : String) : String := String.mk (pyTrimChars s.toList)

/-- Is `pre` a prefix of the char list? -/
def listIsPrefix : List Char → List Char → Bool
  | [], _ => true
  | _ :: _, [] => false
  | a :: as, b :: bs => a == b && listIsPrefix as bs

/-- Python `s.startswith(pre)` on the character lists. -/
def strStartsWith (s pre : String) : Bool := listIsPrefix pre.toList s.toList

/-- Python `s.endswith(suf)` on the character lists. -/
def strEndsWith (s suf : String) : Bool :=
  listIsPrefix suf.toList.reverse s.toList.reverse

/-- Consume leading decimal digits; return how many and the rest. -/
def spanDigits : List Char → Nat × List Char
  | [] => (0, [])
  | c :: rest =>
    if c.isDigit then
      let r := spanDigits rest
      (r.1 + 1, r.2)
    else (0, c :: rest)

/-- Drop one leading `+`/`-` sign if present. -/
def dropSign : List Char → List Char
  | [] => []
  | c :: rest => if c = '+' ∨ c = '-' then rest else c :: rest

/-- Recognize the exponent tail of a Python float literal (empty, or
`e`/`E`, optional sign, one or more digits). -/
def floatExpOk : List Char → Bool
  | [] => true
  | c :: rest =>
    if c = 'e' ∨ c = 'E' then
      let r := spanDigits (dropSign rest)
      decide (0 < r.1) && decide (r.2 = [])
    else false

/-- Does `float(s)` succeed on string `s`? -/
def pyFloatOk (s : String) : Bool :=
  let cs := dropSign (pyTrimChars s.toList)
  let r1 := spanDigits cs
  match r1.2 with
  | '.' :: cs2 =>
    let r2 := spanDigits cs2
    decide (0 < r1.1 + r2.1) && floatExpOk r2.2
  | rest => decide (0 < r1.1) && floatExpOk rest

/-- Numeric value of a digit list (most significant first). -/
def digitsVal : List Char → Nat → Nat
  | [], acc => acc
  | c :: rest, acc => digitsVal rest (acc * 10 + (c.toNat - '0'.toNat))

/-- `int(s)` on a string: `some` value iff `s` is an integer literal. -/
def pyIntOfString (s : String) : Option Int :=
  let t := pyTrimChars s.toList
  let neg := match t with
    | c :: _ => decide (c = '-')
    | [] => false
  let cs := dropSign t
  let r := spanDigits cs
  if 0 < r.1 ∧ r.2 = [] then
    let v : Int := Int.ofNat (digitsVal (cs.take r.1) 0)
    some (if neg then -v else v)
  else none

/-- `int(f)` on a float literal: truncation toward zero (only ever applied
to the `0.0` default in the embedded code). -/
def floatLitTrunc (lit : String) : Int :=
  let t := pyTrimChars lit.toList
  let neg := match t with
    | c :: _ => decide (c = '-')
    | [] => false
  let cs := dropSign t
  let r := spanDigits cs
  let v : Int := Int.ofNat (digitsVal (cs.take r.1) 0)
  if neg then -v else v

/-- The tree length type: the Python class `int` or `float`, as selected by
`_from_nexml_tree_length_type` (`"nex:IntTree"` gives `int`, anything else
gives `float`). -/
inductive LengthType where
  | intTree
  | floatTree
deriving DecidableEq, Repr

/-- `str(length_type)` as interpolated into error messages. -/
def LengthType.pyName : LengthType → String
  | .intTree => "<type 'int'>"
  | .floatTree => "<type 'float'>"

/-- A Python value flowing through the length conversions. -/
inductive PyVal where
  | vint (i : Int)
  | vfloat (lit : String)
  | vstr (s : String)
deriving DecidableEq, Repr

/-- Application of the length-type class (`int(x)` or `float(x)`) to a
value: on a string, parse the literal or raise `ValueError`; on numbers,
convert (never raising). -/
def pyConvert (lt : LengthType) (v : PyVal) : Except PyErr PyVal :=
  match lt, v with
  | .intTree, .vint i => .ok (.vint i)
  | .intTree, .vfloat lit => .ok (.vint (floatLitTrunc lit))
  | .intTree, .vstr s =>
    match pyIntOfString s with
    | some i => .ok (.vint i)
    | none => .error (.valueErrorLiteral s)
  | .floatTree, .vint i => .ok (.vfloat (intStr i ++ ".0"))
  | .floatTree, .vfloat lit => .ok (.vfloat lit)
  | .floatTree, .vstr s =>
    if pyFloatOk s then .ok (.vfloat (pyTrim s)) else .error (.valueErrorLiteral s)

/-! ## NEXML tree parsing (`_NexmlTreesParser`, `nexml.py`)

The XML layer is an external collaborator (spec §6): a `node`/`edge`/
`rootedge` element is modelled by a record of its attributes. -/

/-- Attributes of a `<node>` element read by `parse_nodes`. -/
structure NodeRecord where
  id? : Option String
  label? : Option String
  otu? : Option String
deriving DecidableEq, Repr

/-- Attributes of an `<edge>`/`<rootedge>` element read by `parse_edges` /
`parse_root_edge`. -/
structure EdgeRecord where
  id? : Option String
  source? : Option String
  target? : Option String
  length? : Option String
deriving DecidableEq, Repr

/-- A constructed `Edge` as produced by `parse_edges`: oid (defaulted to
`e<counter>`), unresolved tail/head node ids, converted length. -/
structure Edge where
  oid : String
  tailNodeId : Option String
  headNodeId : Option String
  length : PyVal
  rootedge : Bool
deriving DecidableEq, Repr

/-- Python truthiness of an optional string (`None` and `""` are falsy). -/
def truthyOpt : Option String → Bool
  | none => false
  | some s => !(s = "")

/-- The body of the `parse_edges` loop for one `<edge>` element.  Faithful
to the source's order of operations: the oid is defaulted, then the length
attribute is converted by the *unguarded* assignment
`edge_length_str = length_type(nxedge.get('length', 0.0))` (a bad literal
raises a bare `ValueError` here), then the missing-source and
missing-target checks run, and only then does the guarded `try:`
re-conversion `length_type(edge_length_str)` run — whose `except` branch
(`edgeLengthNotType`) can no longer fire, since its argument is already a
number. -/
def parse_edge_record (counter : Nat) (r : EdgeRecord) (lt : LengthType) :
    Except PyErr Edge :=
  let tailId := r.source?
  let headId := r.target?
  let oid := r.id?.getD ("e" ++ natStr counter)
  match pyConvert lt (match r.length? with
                      | some s => .vstr s
                      | none => .vfloat "0.0") with
  | .error e => .error e
  | .ok lenVal =>
    if !truthyOpt tailId then .error (.edgeNoSource counter oid)
    else if !truthyOpt headId then .error (.edgeNoTarget counter oid)
    else
      match pyConvert lt lenVal with
      | .error _ => .error (.edgeLengthNotType counter oid lt.pyName)
      | .ok len2 => .ok ⟨oid, tailId, headId, len2, false⟩

/-- `parse_edges`: process the `<edge>` elements in document order with a
1-based counter, collecting the edges into a dict keyed by oid. -/
def parse_edges_go (rs : List EdgeRecord) (counter : Nat)
    (acc : Dict String Edge) (lt : LengthType) :
    Except PyErr (Dict String Edge) :=
  match rs with
  | [] => .ok acc
  | r :: rest =>
    match parse_edge_record counter r lt with
    | .error e => .error e
    | .ok edge => parse_edges_go rest (counter + 1) (acc.insert edge.oid edge) lt

/-- `_NexmlTreesParser.parse_edges`. -/
def parse_edges (rs : List EdgeRecord) (lt : LengthType) :
    Except PyErr (Dict String Edge) :=
  parse_edges_go rs 1 [] lt

/-- `_NexmlTreesParser.parse_root_edge`: like an edge, but the head id
comes from `target`, the oid default models Python's `'e' + str(id(edge))`,
and the missing-length default is the *string* `'0.0'`. -/
def parse_root_edge (r? : Option EdgeRecord) (lt : LengthType) :
    Except PyErr (Option Edge) :=
  match r? with
  | none => .ok none
  | some r =>
    let headId := r.target?
    let oid := r.id?.getD "e<rootedge>"
    match pyConvert lt (match r.length? with
                        | some s => .vstr s
                        | none => .vstr "0.0") with
    | .error e => .error e
    | .ok lenVal =>
      match pyConvert lt lenVal with
      | .error _ => .error (.rootEdgeLengthNotType oid lt.pyName)
      | .ok len2 => .ok (some ⟨oid, none, headId, len2, true⟩)

/-- The mutable state of one instantiated `dendropy.Node` during tree
construction: oid and label from the record, resolved taxon reference,
parent pointer, ordered child list, and attached edge.  The parent/child
links are those set by `Node.add_child`.  Modelled from the spec: the
`Node` class itself is outside the given sources; spec §4.4 step 3 —
"set `head_node.edge = edge`; if a tail is present, register `head_node`
as a child of `tail_node`" — with children kept in registration order. -/
structure NodeState where
  oid : Option String
  label : Option String
  taxonOid : Option String
  parent : Option (Option String)
  children : List (Option String)
  edge : Option Edge
deriving DecidableEq, Repr

/-- Modelled from the spec: `TaxonSet.require_taxon(oid=...)` (the
`TaxonSet` class used by the tree parser is outside the given sources).
Spec §4.4 step 1: resolve the taxon id via `require_taxon`/exact lookup —
fail with a "taxon not defined" error naming the offending id if absent
(a mutable set creates the missing taxon instead). -/
def require_taxon_by_oid (taxonOids : List String) (isMutable : Bool)
    (oid : String) : Except PyErr String :=
  if taxonOids.contains oid then .ok oid
  else if isMutable then .ok oid
  else .error (.taxonNotDefined (some oid) none)

/-- `_NexmlTreesParser.parse_nodes`: one `NodeState` per `<node>` element,
keyed by its (possibly missing) id, with the node's `otu` reference
resolved against the taxon set. -/
def parse_nodes_go (rs : List NodeRecord) (taxonOids : List String)
    (taxaMutable : Bool) (acc : Dict (Option String) NodeState) :
    Except PyErr (Dict (Option String) NodeState) :=
  match rs with
  | [] => .ok acc
  | r :: rest =>
    let nodeId := r.id?
    let base : NodeState := ⟨nodeId, r.label?, none, none, [], none⟩
    match r.otu? with
    | none => parse_nodes_go rest taxonOids taxaMutable (acc.insert nodeId base)
    | some tid =>
      match require_taxon_by_oid taxonOids taxaMutable tid with
      | .error e => .error e
      | .ok _ =>
        parse_nodes_go rest taxonOids taxaMutable
          (acc.insert nodeId { base with taxonOid := some tid })

/-- `_NexmlTreesParser.parse_nodes`. -/
def parse_nodes (rs : List NodeRecord) (taxonOids : List String)
    (taxaMutable : Bool) : Except PyErr (Dict (Option String) NodeState) :=
  parse_nodes_go rs taxonOids taxaMutable []

/-- In-place update of the entry a lookup would find (Python object
mutation through the dict). -/
def dictUpdate {K V : Type} [DecidableEq K] (m : Dict K V) (k : K)
    (f : V → V) : Dict K V :=
  match m with
  | [] => []
  | (k', v) :: rest =>
    if k' = k then (k', f v) :: rest else (k', v) :: dictUpdate rest k f

/-- The edge-attachment loop of `parse_trees` over `edges.values()` (the
Python 2 dict's hash-table slot order, `py2Values`).  Per edge: a truthy-but-unresolved source id raises the
"non-defined source node" error (whose message tail joins the node dict's
*keys*, which is well defined); an unresolved head id raises the
"non-defined target node" error, but its message tail
`','.join([n.oid for n in nodes])` iterates the dict's *keys* — strings —
so when the node dict is non-empty building the message itself raises
`AttributeError` (`strHasNoAttrOid`); otherwise the edge is attached:
`head_node.edge = edge`, and if the tail id is truthy the head node is
registered as a child of the tail node (setting the head's parent). -/
def attach_edges (nodes : Dict (Option String) NodeState) :
    List Edge → Except PyErr (Dict (Option String) NodeState)
  | [] => .ok nodes
  | e :: rest =>
    if truthyOpt e.tailNodeId && !(nodes.lookup e.tailNodeId).isSome then
      .error (.edgeUndefinedSource e.oid e.tailNodeId nodes.keys)
    else if !(nodes.lookup e.headNodeId).isSome then
      if nodes = [] then .error (.edgeUndefinedTarget e.oid e.headNodeId)
      else .error .strHasNoAttrOid
    else if truthyOpt e.headNodeId && truthyOpt e.tailNodeId then
      let nodes1 := dictUpdate nodes e.headNodeId
        fun n => { n with edge := some e, parent := some e.tailNodeId }
      let nodes2 := dictUpdate nodes1 e.tailNodeId
        fun n => { n with children := n.children ++ [e.headNodeId] }
      attach_edges nodes2 rest
    else if truthyOpt e.headNodeId && !truthyOpt e.tailNodeId then
      attach_edges (dictUpdate nodes e.headNodeId
        fun n => { n with edge := some e }) rest
    else
      attach_edges nodes rest

/-- The parentless nodes (no parent set after edge attachment), in node
insertion order, identified by their dict keys (a node's key equals its
oid). -/
def determine_parentless (nodes : Dict (Option String) NodeState) :
    List (Option String) :=
  (nodes.filter fun p => p.2.parent.isNone).map Prod.fst

/-- The root of a constructed tree: either one of the instantiated nodes
(the unique parentless node) or the fresh default seed node a bare
`dendropy.Tree()` carries, with the multiple parentless nodes attached as
its children (the `len(parentless) > 1` branch). -/
inductive SeedNode where
  | parsed (id : Option String)
  | defaultSeed (childIds : List (Option String))
deriving DecidableEq, Repr

/-- The result of parsing one `<tree>` element. -/
structure ParsedTree where
  oid : String
  lengthType : LengthType
  seed : SeedNode
  nodes : Dict (Option String) NodeState
  rootEdge : Option Edge
deriving DecidableEq, Repr

/-- The per-tree body of `_NexmlTreesParser.parse_trees`: instantiate the
nodes, parse the edges, attach them, determine the parentless nodes
(exactly one: it becomes the seed; none: "Structural error: tree must be
acyclic."; several: all become children of the default seed node), then
handle the optional root edge.  When a root edge is present but its target
is unresolved, the source interpolates the stale loop variable `edge` (the
last edge of the preceding loop — a `NameError` if there were none) and
joins `[n.oid for n in nodes]` over the dict keys (an `AttributeError` on
a non-empty node dict); when no root edge is present the seed node's edge
is set to `None`. -/
def parse_tree (treeOid : String) (lt : LengthType)
    (nodeRecs : List NodeRecord) (edgeRecs : List EdgeRecord)
    (rootEdgeRec : Option EdgeRecord) (taxonOids : List String) :
    Except PyErr ParsedTree :=
  match parse_nodes nodeRecs taxonOids true with
  | .error e => .error e
  | .ok nodes =>
    match parse_edges edgeRecs lt with
    | .error e => .error e
    | .ok edges =>
      match attach_edges nodes (py2Values edges) with
      | .error e => .error e
      | .ok nodes2 =>
        let seedE : Except PyErr SeedNode :=
          match determine_parentless nodes2 with
          | [x] => .ok (.parsed x)
          | [] => .error .notAcyclic
          | x :: y :: rest => .ok (.defaultSeed (x :: y :: rest))
        match seedE with
        | .error e => .error e
        | .ok seed =>
          match parse_root_edge rootEdgeRec lt with
          | .error e => .error e
          | .ok none =>
            match seed with
            | .parsed sid =>
              .ok ⟨treeOid, lt, seed,
                   dictUpdate nodes2 sid (fun n => { n with edge := none }),
                   none⟩
            | .defaultSeed _ => .ok ⟨treeOid, lt, seed, nodes2, none⟩
          | .ok (some re) =>
            if !(nodes2.lookup re.headNodeId).isSome then
              match (py2Values edges).getLast? with
              | none => .error (.exceptionMsg "NameError: name edge is not defined")
              | some _ => .error .strHasNoAttrOid
            else
              .ok ⟨treeOid, lt, seed,
                   dictUpdate nodes2 re.headNodeId
                     (fun n => { n with edge := some re }),
                   some re⟩

/-! ## Character matrices (`_NexmlCharBlockParser` / `NexmlWriter`)

The character data model (`StateAlphabet`, `StateAlphabetElement`,
`CharacterType`, cells, rows, `DnaCharacterMatrix`) lives outside the given
sources; it is modelled from the spec (§3 data model, §4.5).  Member states
of ambiguous/polymorphic states are object references in Python; they are
modelled by the referenced states' oids.  Python object references to
alphabets/character types are modelled by embedded records (the referenced
objects are never mutated after the references are taken). -/

/-- The multistate kind of a state (spec §3: single, ambiguous,
polymorphic), which is also the element tag it is written under. -/
inductive Multistate where
  | single
  | ambiguous
  | polymorphic
deriving DecidableEq, Repr

/-- Modelled from the spec: `StateAlphabetElement` — id, symbol, token,
multistate kind, member-state list (members by their oids, in order). -/
structure SAE where
  oid : Option String
  label : Option String
  symbol : Option String
  token : Option String
  multistate : Multistate
  memberOids : List (Option String)
deriving DecidableEq, Repr

/-- Modelled from the spec: `StateAlphabet` — an ordered collection of
states (list-like in Python: its truthiness is non-emptiness). -/
structure StateAlphabet where
  oid : Option String
  label : Option String
  states : List SAE
deriving DecidableEq, Repr

/-- Modelled from the spec: `CharacterType` — a column definition naming an
id and optionally a state alphabet (§3). -/
structure CharacterType where
  oid : Option String
  stateAlphabet : Option StateAlphabet
deriving DecidableEq, Repr

/-- Modelled from the spec: one cell of a discrete matrix — a state value
and an optional column (`character_type`) reference. -/
structure CharCell where
  value : SAE
  characterType : Option CharacterType
deriving DecidableEq, Repr

/-- A taxon as referenced from character rows (id and label); row taxa are
compared by object identity in Python, modelled here by record equality
(the taxa handed to the parser/writer are pairwise distinct records). -/
structure TaxonRef where
  oid : Option String
  label : Option String
deriving DecidableEq, Repr

/-- Modelled from the spec: one matrix row (`CharacterDataVector`) — id,
label, ordered cells. -/
structure CharRow where
  oid : Option String
  label : Option String
  cells : List CharCell
deriving DecidableEq, Repr

/-- Modelled from the spec: a `DnaCharacterMatrix` — id/label, taxa-block
reference, state alphabets, optional default alphabet, markup flag, and the
ordered taxon→row map `taxon_seq_map`. -/
structure DnaMatrix where
  oid : Option String
  label : Option String
  taxonSetOid : String
  stateAlphabets : List StateAlphabet
  defaultStateAlphabet : Option StateAlphabet
  markupAsSequences : Bool
  rows : List (TaxonRef × CharRow)
deriving DecidableEq, Repr

/-! ### The markup-element layer (external XML collaborator, spec §6) -/

/-- A `<member state="..."/>` element. -/
structure MemberElem where
  state? : Option String
deriving DecidableEq, Repr

/-- A `<state>`/`<uncertain_state_set>`/`<polymorphic_state_set>` element
(the tag recorded as the multistate kind).  Nested state-set elements are
not modelled (the writer never produces them; members are emitted as
references). -/
structure StateElemR where
  tag : Multistate
  id? : Option String
  label? : Option String
  symbol? : Option String
  token? : Option String
  members : List MemberElem
deriving DecidableEq, Repr

/-- A `<states>` element. -/
structure StatesElemR where
  id? : Option String
  label? : Option String
  stateElems : List StateElemR
deriving DecidableEq, Repr

/-- A `<char>` (column) element. -/
structure CharElemR where
  id? : Option String
  states? : Option String
deriving DecidableEq, Repr

/-- A `<cell>` element. -/
structure CellElemR where
  char? : Option String
  state? : Option String
deriving DecidableEq, Repr

/-- A `<row>` element with its `<seq>` text or `<cell>` children. -/
structure RowElemR where
  id? : Option String
  label? : Option String
  otu? : Option String
  seq? : Option String
  cells : List CellElemR
deriving DecidableEq, Repr

/-- A `<characters>` element. -/
structure CharsElemR where
  xsiType? : Option String
  id? : Option String
  label? : Option String
  otus? : Option String
  formatPresent : Bool
  statesElems : List StatesElemR
  charElems : List CharElemR
  matrixPresent : Bool
  rows : List RowElemR
deriving DecidableEq, Repr

/-! ### Parser side (`_NexmlCharBlockParser`) -/

/-- Modelled from the spec: `StateAlphabet.get_state('oid', id)` — resolve
a member-state reference within the alphabet (first state with the given
oid); an unresolved reference is a fatal error (spec §4.5). -/
def get_state_by_oid (states : List SAE) (oid? : Option String) :
    Except PyErr SAE :=
  match states.find? (fun s => decide (s.oid = oid?)) with
  | some s => .ok s
  | none => .error (.memberStateNotFound oid?)

/-- Resolve the `<member>` children of a state-set element against the
states parsed so far, collecting the resolved states' oids in order
(`parse_ambiguous_state` / `parse_polymorphic_state` member loops). -/
def parse_multistate_members (states : List SAE) :
    List MemberElem → Except PyErr (List (Option String))
  | [] => .ok []
  | m :: rest =>
    match get_state_by_oid states m.state? with
    | .error e => .error e
    | .ok s =>
      match parse_multistate_members states rest with
      | .error e => .error e
      | .ok l => .ok (s.oid :: l)

/-- Append the parsed multistate state-set elements of one kind to the
alphabet being built, each with its members resolved against the states
already appended (`parse_state_alphabet`'s second and third loops). -/
def append_multistates (kind : Multistate) (acc : List SAE) :
    List StateElemR → Except PyErr (List SAE)
  | [] => .ok acc
  | e :: rest =>
    match parse_multistate_members acc e.members with
    | .error er => .error er
    | .ok mo =>
      append_multistates kind
        (acc ++ [⟨e.id?, e.label?, e.symbol?, e.token?, kind, mo⟩]) rest

/-- `_NexmlCharBlockParser.parse_state_alphabet`: collect the `<state>`
elements (single states), then the `<uncertain_state_set>` elements
(ambiguous), then the `<polymorphic_state_set>` elements, in that order. -/
def parse_state_alphabet (r : StatesElemR) : Except PyErr StateAlphabet :=
  let singles := (r.stateElems.filter fun e => decide (e.tag = .single)).map
    fun e => (⟨e.id?, e.label?, e.symbol?, e.token?, .single, []⟩ : SAE)
  match append_multistates .ambiguous singles
          (r.stateElems.filter fun e => decide (e.tag = .ambiguous)) with
  | .error e => .error e
  | .ok withAmb =>
    match append_multistates .polymorphic withAmb
            (r.stateElems.filter fun e => decide (e.tag = .polymorphic)) with
    | .error e => .error e
    | .ok all => .ok ⟨r.id?, r.label?, all⟩

/-- Parse all `<states>` elements of the format block in order. -/
def parse_alphabets : List StatesElemR → Except PyErr (List StateAlphabet)
  | [] => .ok []
  | s :: rest =>
    match parse_state_alphabet s with
    | .error e => .error e
    | .ok a =>
      match parse_alphabets rest with
      | .error e => .error e
      | .ok l => .ok (a :: l)

/-- The `<char>` loop of `parse_characters_format`: each column names an id
and optionally a `states` reference, resolved against the matrix's state
alphabets (first alphabet with matching oid; unresolved is fatal); with no
reference, the matrix's default alphabet is used if present. -/
def parse_format_chars (alphabets : List StateAlphabet)
    (defaultAlph : Option StateAlphabet) :
    List CharElemR → Except PyErr (List CharacterType)
  | [] => .ok []
  | c :: rest =>
    let ctE : Except PyErr CharacterType :=
      match c.states? with
      | some sid =>
        match alphabets.find? (fun a => decide (a.oid = some sid)) with
        | none => .error (.stateSetNotDefined sid)
        | some a => .ok ⟨c.id?, some a⟩
      | none =>
        match defaultAlph with
        | some d => .ok ⟨c.id?, some d⟩
        | none => .ok ⟨c.id?, none⟩
    match ctE with
    | .error e => .error e
    | .ok ct =>
      match parse_format_chars alphabets defaultAlph rest with
      | .error e => .error e
      | .ok l => .ok (ct :: l)

/-- `parse_characters_format`: the state alphabets, then the columns. -/
def parse_characters_format (statesElems : List StatesElemR)
    (charElems : List CharElemR) (defaultAlph : Option StateAlphabet) :
    Except PyErr (List StateAlphabet × List CharacterType) :=
  match parse_alphabets statesElems with
  | .error e => .error e
  | .ok alphabets =>
    match parse_format_chars alphabets defaultAlph charElems with
    | .error e => .error e
    | .ok cts => .ok (alphabets, cts)

/-- Modelled from the spec: the alphabet's "symbol table"
(`symbol_state_map()`) — each state's symbol mapped to the state. -/
def symbol_state_map (a : StateAlphabet) : Dict String SAE :=
  a.states.foldl
    (fun m s =>
      match s.symbol with
      | some sym => m.insert sym s
      | none => m)
    []

/-- Modelled from the spec: the alphabet's id→state map (`id_state_map()`). -/
def id_state_map (a : StateAlphabet) : Dict (Option String) SAE :=
  a.states.foldl (fun m s => m.insert s.oid s) []

/-- Modelled from the spec: `char_matrix.id_chartype_map()` — column id to
column. -/
def id_chartype_map (cts : List CharacterType) : Dict (Option String) CharacterType :=
  cts.foldl (fun m ct => m.insert ct.oid ct) []

/-- Modelled from the spec: `CharacterDataVector.set_cell_by_index` — the
column→position realignment used by cell markup: pad the vector with `None`
up to the index, then assign. -/
def set_cell_by_index (l : List (Option CharCell)) (i : Nat) (c : CharCell) :
    List (Option CharCell) :=
  let padded := if l.length ≤ i then l ++ List.replicate (i + 1 - l.length) none else l
  padded.set i (some c)

/-- Modelled from the spec: `TaxonSet.require_taxon(oid=...)` over a taxa
block: return the first taxon with the given oid; if absent, a mutable set
creates (and returns) a fresh taxon with that oid, an immutable one raises
`KeyError`. -/
def require_taxon_ref (tset : List TaxonRef) (isMutable : Bool)
    (oid? : Option String) : Except PyErr TaxonRef :=
  match tset.find? (fun t => decide (t.oid = oid?)) with
  | some t => .ok t
  | none =>
    if isMutable then .ok ⟨oid?, none⟩
    else .error (.keyError (pyStrOpt oid?))

/-- The discrete sequence-markup strip: `seq.replace(' ', '').replace('\n',
'').replace('\r', '')`. -/
def stripSeqDiscrete (s : String) : String :=
  String.mk (s.toList.filter fun c => !(c == ' ' || c == '\n' || c == '\r'))

/-- The discrete sequence-markup character loop of `parse_char_matrix`.
Faithful to the source's order of operations: for the character at
`colIdx`, the column is first fetched by the *unguarded* subscript
`char_matrix.character_types[col_idx]` (an `IndexError` when the sequence
outruns the declared columns) and its alphabet's symbol table is built
(`None.symbol_state_map()` is an `AttributeError` for a column without an
alphabet); if the symbol is in the table, the (now dead) bounds check
`len(chartypes) <= col_idx` would raise `columnNotDefined`, and the
resolved state is appended as a cell; an absent symbol raises the
`symbolNotDefined` parse error, which interpolates the matrix oid, row id,
position, symbol and (stripped) sequence — not the taxon. -/
def parse_seq_symbols (matrixOid rowId taxonLabel : Option String)
    (characterTypes : List CharacterType) (seq : String) :
    List Char → Nat → List (Option CharCell) →
    Except PyErr (List (Option CharCell))
  | [], _, acc => .ok acc
  | ch :: rest, colIdx, acc =>
    match characterTypes.get? colIdx with
    | none => .error .indexError
    | some ct =>
      match ct.stateAlphabet with
      | none => .error (.noneHasNoAttr "symbol_state_map")
      | some a =>
        match (symbol_state_map a).lookup ch.toString with
        | some st =>
          if characterTypes.length ≤ colIdx then
            .error (.columnNotDefined (colIdx + 1) matrixOid rowId taxonLabel)
          else
            parse_seq_symbols matrixOid rowId taxonLabel characterTypes seq
              rest (colIdx + 1) (acc ++ [some ⟨st, some ct⟩])
        | none => .error (.symbolNotDefined matrixOid rowId colIdx ch seq)

/-- The discrete cell-markup loop of `parse_char_matrix`: resolve each
cell's column reference in `id_chartype_map` (missing/unresolved is a parse
error naming the matrix, row and taxon), find the column's position with
`chartypes.index`, resolve the state id in the column alphabet's
id→state map (an unguarded subscript: `KeyError` when absent;
`None.id_state_map()` an `AttributeError` for a column without an
alphabet), and place the cell at the column position. -/
def parse_cells (matrixOid rowId taxonLabel : Option String)
    (idChartypeMap : Dict (Option String) CharacterType)
    (chartypes : List CharacterType) :
    List CellElemR → List (Option CharCell) →
    Except PyErr (List (Option CharCell))
  | [], acc => .ok acc
  | c :: rest, acc =>
    match c.char? with
    | none => .error (.cellCharMissing matrixOid rowId taxonLabel)
    | some cid =>
      match idChartypeMap.lookup (some cid) with
      | none => .error (.cellCharNotFound cid matrixOid rowId taxonLabel)
      | some ct =>
        match chartypes.findIdx? (fun x => decide (x = ct)) with
        | none => .error (.exceptionMsg "ValueError: x not in list")
        | some posIdx =>
          match ct.stateAlphabet with
          | none => .error (.noneHasNoAttr "id_state_map")
          | some a =>
            match (id_state_map a).lookup c.state? with
            | none => .error (.keyError (pyStrOpt c.state?))
            | some st =>
              parse_cells matrixOid rowId taxonLabel idChartypeMap chartypes
                rest (set_cell_by_index acc posIdx ⟨st, some ct⟩)

/-- One `<row>` element of a DNA (discrete, non-continuous) matrix: resolve
the row's taxon (a `KeyError` becomes the `rowTaxonNotDefined` parse
error), then parse either the `<seq>` text (sequence markup; a missing
`<seq>` leaves the row empty) or the `<cell>` children (cell markup). -/
def parse_one_row (tset : List TaxonRef) (taxaMutable : Bool)
    (matrixOid matrixLabel : Option String) (taxaId : String)
    (markup : Bool) (characterTypes : List CharacterType)
    (idChartypeMap : Dict (Option String) CharacterType)
    (chartypes : List CharacterType) (row : RowElemR) :
    Except PyErr (TaxonRef × List (Option CharCell)) :=
  let rowId := row.id?
  let taxonId := row.otu?
  match require_taxon_ref tset taxaMutable taxonId with
  | .error _ =>
    .error (.rowTaxonNotDefined matrixOid matrixLabel taxonId (some taxaId))
  | .ok taxon =>
    if markup then
      match row.seq? with
      | none => .ok (taxon, [])
      | some seqRaw =>
        let seq := stripSeqDiscrete seqRaw
        match parse_seq_symbols matrixOid rowId taxon.label characterTypes
                seq seq.toList 0 [] with
        | .error e => .error e
        | .ok cells => .ok (taxon, cells)
    else
      match parse_cells matrixOid rowId taxon.label idChartypeMap chartypes
              row.cells [] with
      | .error e => .error e
      | .ok cells => .ok (taxon, cells)

/-- The row loop: each parsed row is assigned into the taxon→row map
(`char_matrix[taxon] = character_vector`, keyed by the resolved taxon). -/
def parse_rows (tset : List TaxonRef) (taxaMutable : Bool)
    (matrixOid matrixLabel : Option String) (taxaId : String)
    (markup : Bool) (characterTypes : List CharacterType)
    (idChartypeMap : Dict (Option String) CharacterType)
    (chartypes : List CharacterType) :
    List RowElemR → Dict TaxonRef (List (Option CharCell)) →
    Except PyErr (Dict TaxonRef (List (Option CharCell)))
  | [], acc => .ok acc
  | r :: rest, acc =>
    match parse_one_row tset taxaMutable matrixOid matrixLabel taxaId markup
            characterTypes idChartypeMap chartypes r with
    | .error e => .error e
    | .ok (taxon, cells) =>
      parse_rows tset taxaMutable matrixOid matrixLabel taxaId markup
        characterTypes idChartypeMap chartypes rest (acc.insert taxon cells)

/-- The result of parsing one `<characters>` element. -/
structure ParsedCharMatrix where
  oid : Option String
  label : Option String
  stateAlphabets : List StateAlphabet
  characterTypes : List CharacterType
  markupAsSequences : Bool
  rows : Dict TaxonRef (List (Option CharCell))
deriving DecidableEq, Repr

/-- `_NexmlCharBlockParser.parse_char_matrix`, restricted to the
`nex:Dna...` branch of the `xsi:type` dispatch (the claims' scope; the
other recognized matrix kinds share the same machinery and are outside the
embedded fragment, while an unrecognized discriminator raises the
`UnboundLocalError`: the `NotImplementedError`'s message interpolates the
still-unassigned `char_matrix`).  A missing `xsi:type` attribute makes
`nxchartype.startswith` an `AttributeError` on `None`.  The fresh
`DnaCharacterMatrix` is modelled with no pre-populated state alphabets and
no default alphabet.  The `markup_as_sequences` flag is set from the
discriminator suffix (in the source it is assigned, to the same value, in
each row iteration). -/
def parse_char_matrix_dna (r : CharsElemR)
    (datasetTaxonSets : Dict String (List TaxonRef)) (taxaMutable : Bool) :
    Except PyErr ParsedCharMatrix :=
  match r.xsiType? with
  | none => .error (.noneHasNoAttr "startswith")
  | some xsiType =>
    if !strStartsWith xsiType "nex:Dna" then
      if strStartsWith xsiType "nex:Rna" || strStartsWith xsiType "nex:Protein"
          || strStartsWith xsiType "nex:Restriction"
          || strStartsWith xsiType "nex:Standard"
          || strStartsWith xsiType "nex:Continuous" then
        .error (.exceptionMsg "non-DNA matrix kind: outside the embedded fragment")
      else
        .error (.unboundLocalError "char_matrix")
    else
      let matrixOid := r.id?
      let matrixLabel := r.label?
      match r.otus? with
      | none => .error (.exceptionMsg "Taxa block not specified for characters block")
      | some taxaId =>
        match datasetTaxonSets.lookup taxaId with
        | none => .error (.exceptionMsg "Taxa block not found")
        | some tset =>
          let fmtE : Except PyErr (List StateAlphabet × List CharacterType) :=
            if r.formatPresent then
              parse_characters_format r.statesElems r.charElems none
            else .ok ([], [])
          match fmtE with
          | .error e => .error e
          | .ok (alphabets, characterTypes) =>
            if !r.matrixPresent then .error (.noneHasNoAttr "iter_top_children")
            else
              let markup := strEndsWith xsiType "Seqs"
              let idMap :=
                if characterTypes.isEmpty then [] else id_chartype_map characterTypes
              let chartypes := if characterTypes.isEmpty then [] else characterTypes
              match parse_rows tset taxaMutable matrixOid matrixLabel taxaId
                      markup characterTypes idMap chartypes r.rows [] with
              | .error e => .error e
              | .ok rows =>
                .ok ⟨matrixOid, matrixLabel, alphabets, characterTypes, markup, rows⟩

/-! ### Writer side (`NexmlWriter.write_char_matrices`) -/

/-- `NexmlWriter.compose_state_definition`: a single state is written as a
self-closing `<state id symbol/>`; a multistate state is written under its
kind's tag with its members emitted as `<member state="oid"/>` references
(attribute values rendered with `%s`, so a missing oid/symbol prints as
`"None"`). -/
def compose_state_elem (s : SAE) : StateElemR :=
  { tag := s.multistate
    id? := some (pyStrOpt s.oid)
    label? := none
    symbol? := some (pyStrOpt s.symbol)
    token? := none
    members :=
      match s.multistate with
      | .single => []
      | _ => s.memberOids.map fun m => ⟨some (pyStrOpt m)⟩ }

/-- The `<states>` emission of `write_char_matrices`: all single states,
then all polymorphic states, then all ambiguous states of the alphabet. -/
def write_states_elem (a : StateAlphabet) : StatesElemR :=
  { id? := some (pyStrOpt a.oid)
    label? := none
    stateElems :=
      (a.states.filter fun s => decide (s.multistate = .single)).map compose_state_elem
        ++ (a.states.filter fun s => decide (s.multistate = .polymorphic)).map compose_state_elem
        ++ (a.states.filter fun s => decide (s.multistate = .ambiguous)).map compose_state_elem }

/-- The accumulator of the writer's column-type pass: `chartypes_to_add`
and `column_chartype_map`.  (`cell_chartype_map[cell]` always ends up equal
to `column_chartype_map[col_idx]` for the cell's column — the column entry
is written once and never changed — so the per-cell map is not modelled
separately.) -/
structure ChartypeAcc where
  chartypesToAdd : List CharacterType
  columnChartypeMap : Dict Nat CharacterType
deriving DecidableEq, Repr

/-- The common tail of the column-type pass: append the column type to
`chartypes_to_add` unless already there (Python membership is object
identity; the records here are identity-faithful because fresh column
types of distinct columns have distinct `c<idx>` oids) and record it in
`column_chartype_map`. -/
def chartype_register (acc : ChartypeAcc) (colIdx : Nat) (ct : CharacterType) :
    ChartypeAcc :=
  { chartypesToAdd :=
      if acc.chartypesToAdd.contains ct then acc.chartypesToAdd
      else acc.chartypesToAdd ++ [ct]
    columnChartypeMap := acc.columnChartypeMap.insert colIdx ct }

/-- The per-cell body of the writer's column-type pass (the
`hasattr(char_matrix, "state_alphabets")` branch taken by DNA matrices):
reuse the cached column type; otherwise build one with oid `c<idx>` from
the cell's own `character_type`'s alphabet, or the matrix default, or the
unique matrix alphabet — and raise `TypeError` when multiple or no
alphabets leave the cell unmappable. -/
def build_chartypes_cells (m : DnaMatrix) (taxon : TaxonRef) :
    List CharCell → Nat → ChartypeAcc → Except PyErr ChartypeAcc
  | [], _, acc => .ok acc
  | cell :: rest, colIdx, acc =>
    let ctE : Except PyErr CharacterType :=
      match acc.columnChartypeMap.lookup colIdx with
      | some ct => .ok ct
      | none =>
        match cell.characterType with
        | none =>
          let ctOid := some ("c" ++ natStr colIdx)
          match m.defaultStateAlphabet with
          | some d => .ok ⟨ctOid, some d⟩
          | none =>
            match m.stateAlphabets with
            | [a] => .ok ⟨ctOid, some a⟩
            | [] =>
              .error (.writerTypeError
                [natStr colIdx, pyStrOpt taxon.oid, pyStrOpt taxon.label,
                 "no state alphabets"])
            | _ =>
              .error (.writerTypeError
                [natStr colIdx, pyStrOpt taxon.oid, pyStrOpt taxon.label,
                 "multiple state alphabets, no default"])
        | some cct => .ok ⟨some ("c" ++ natStr colIdx), cct.stateAlphabet⟩
    match ctE with
    | .error e => .error e
    | .ok ct =>
      build_chartypes_cells m taxon rest (colIdx + 1)
        (chartype_register acc colIdx ct)

/-- The column-type pass over all rows of `taxon_seq_map` in order. -/
def build_chartypes_rows (m : DnaMatrix) :
    List (TaxonRef × CharRow) → ChartypeAcc → Except PyErr ChartypeAcc
  | [], acc => .ok acc
  | (taxon, row) :: rest, acc =>
    match build_chartypes_cells m taxon row.cells 0 acc with
    | .error e => .error e
    | .ok acc2 => build_chartypes_rows m rest acc2

/-- The `<char>` emission: one element per collected column type, with a
`states` reference only when the column's alphabet is truthy (`None` and
an empty list-like alphabet are falsy). -/
def write_char_elems (cts : List CharacterType) : List CharElemR :=
  cts.map fun ct =>
    { id? := some (pyStrOpt ct.oid)
      states? :=
        match ct.stateAlphabet with
        | some a => if a.states.isEmpty then none else some (pyStrOpt a.oid)
        | none => none }

/-- The sequence-markup symbol collection for one row: every cell value
must have a symbol (`TypeError` naming the cell index and row id
otherwise). -/
def write_row_seq_symbols (rowOid : Option String) :
    List CharCell → Nat → Except PyErr (List String)
  | [], _ => .ok []
  | c :: rest, cidx =>
    match c.value.symbol with
    | none => .error (.writerTypeError [natStr cidx, pyStrOpt rowOid])
    | some sym =>
      match write_row_seq_symbols rowOid rest (cidx + 1) with
      | .error e => .error e
      | .ok l => .ok (sym :: l)

/-- The `<seq>` text of one DNA row: the cell symbols joined with the empty
separator (the line wrapping applied by `textwrap.fill` belongs to the
external markup layer and is undone by the parser's whitespace strip). -/
def write_row_seq (row : CharRow) : Except PyErr String :=
  match write_row_seq_symbols row.oid row.cells 0 with
  | .error e => .error e
  | .ok syms => .ok (String.mk (syms.flatMap String.toList))

/-- The `<cell>` emission for one row: per cell, the `char` attribute
carries the column reference of the cell's column type (modelled from the
spec, §6: cell attribute `char` is the column reference; the source
interpolates the `CharacterType` object itself) and the `state` attribute
carries the cell value's oid. -/
def write_row_cells (colMap : Dict Nat CharacterType) :
    List CharCell → Nat → Except PyErr (List CellElemR)
  | [], _ => .ok []
  | c :: rest, cidx =>
    match colMap.lookup cidx with
    | none => .error (.keyError (natStr cidx))
    | some ct =>
      match write_row_cells colMap rest (cidx + 1) with
      | .error e => .error e
      | .ok l =>
        .ok (({ char? := some (pyStrOpt ct.oid)
                state? := some (pyStrOpt c.value.oid) } : CellElemR) :: l)

/-- The `<row>` emission: every row must have an id; the `otu` attribute
names the row's taxon; then either the `<seq>` text or the `<cell>`
children, by the matrix's markup flag. -/
def write_rows (markup : Bool) (colMap : Dict Nat CharacterType) :
    List (TaxonRef × CharRow) → Except PyErr (List RowElemR)
  | [] => .ok []
  | (taxon, row) :: rest =>
    match row.oid with
    | none => .error (.writerMissingId "Row without ID")
    | some _ =>
      let elemE : Except PyErr RowElemR :=
        if markup then
          match write_row_seq row with
          | .error e => .error e
          | .ok seq =>
            .ok { id? := row.oid, label? := none,
                  otu? := some (pyStrOpt taxon.oid), seq? := some seq,
                  cells := [] }
        else
          match write_row_cells colMap row.cells 0 with
          | .error e => .error e
          | .ok cells =>
            .ok { id? := row.oid, label? := none,
                  otu? := some (pyStrOpt taxon.oid), seq? := none,
                  cells := cells }
      match elemE with
      | .error e => .error e
      | .ok elem =>
        match write_rows markup colMap rest with
        | .error e => .error e
        | .ok l => .ok (elem :: l)

/-- The writer's label attribute: written only when truthy (an empty string
is falsy in Python). -/
def writeLabel (l : Option String) : Option String :=
  match l with
  | some s => if s = "" then none else some s
  | none => none

/-- `NexmlWriter.write_char_matrices` for one DNA matrix: the characters
block must have an id; the `xsi:type` is `nex:Dna` plus the markup suffix;
the state alphabets, the collected column types and the rows are emitted;
the `<format>` element appears exactly when it would be non-empty.  The
label attribute is written only when truthy. -/
def write_char_matrix (m : DnaMatrix) : Except PyErr CharsElemR :=
  match m.oid with
  | none => .error (.writerMissingId "Character block without ID")
  | some _ =>
    let xsiType := "nex:Dna" ++ (if m.markupAsSequences then "Seqs" else "Cells")
    match build_chartypes_rows m m.rows ⟨[], []⟩ with
    | .error e => .error e
    | .ok acc =>
      let statesElems := m.stateAlphabets.map write_states_elem
      let charElems := write_char_elems acc.chartypesToAdd
      match write_rows m.markupAsSequences acc.columnChartypeMap m.rows with
      | .error e => .error e
      | .ok rowElems =>
        .ok { xsiType? := some xsiType
              id? := m.oid
              label? := writeLabel m.label
              otus? := some m.taxonSetOid
              formatPresent := !(statesElems.isEmpty && charElems.isEmpty)
              statesElems := statesElems
              charElems := charElems
              matrixPresent := true
              rows := rowElems }

/-! ### Well-formedness of matrices (the spec's data-model invariants, §3)

The round-trip claim quantifies over DNA character matrices; the invariants
below are the spec's own: ids are present and unique, every cell's value is
drawn from its column's state alphabet, symbols are single printable
characters, and member-state references resolve within the alphabet. -/

/-- Every state's member references resolve among `base` plus the states
listed before it (the order in which the parser resolves them). -/
def resolvableChainB (base : List SAE) : List SAE → Bool
  | [] => true
  | s :: rest =>
    (s.memberOids.all fun mo => base.any fun st => decide (st.oid = mo))
      && resolvableChainB (base ++ [s]) rest

/-- The states of a given multistate kind, in order. -/
def statesOfKind (a : StateAlphabet) (k : Multistate) : List SAE :=
  a.states.filter fun s => decide (s.multistate = k)

/-- The parser's reordering of an alphabet's states: all single states,
then all ambiguous states, then all polymorphic states. -/
def reorderStates (l : List SAE) : List SAE :=
  (l.filter fun s => decide (s.multistate = .single))
    ++ (l.filter fun s => decide (s.multistate = .ambiguous))
    ++ (l.filter fun s => decide (s.multistate = .polymorphic))

/-- Well-formedness of a state alphabet (spec §3/§4.5 invariants). -/
structure WFAlphabet (a : StateAlphabet) : Prop where
  oid_some : a.oid.isSome
  label_none : a.label = none
  states_ne : a.states ≠ []
  st_oid_some : ∀ s ∈ a.states, s.oid.isSome
  st_label_none : ∀ s ∈ a.states, s.label = none
  st_token_none : ∀ s ∈ a.states, s.token = none
  st_symbol_some : ∀ s ∈ a.states, s.symbol.isSome
  st_symbol_char : ∀ s ∈ a.states,
    (s.symbol.getD "").toList.length = 1
      ∧ ∀ c ∈ (s.symbol.getD "").toList, !(c == ' ' || c == '\n' || c == '\r')
  oids_nodup : (a.states.map SAE.oid).Nodup
  symbols_nodup : (a.states.map SAE.symbol).Nodup
  singles_no_members : ∀ s ∈ a.states, s.multistate = .single → s.memberOids = []
  amb_chain : resolvableChainB (statesOfKind a .single) (statesOfKind a .ambiguous) = true
  poly_chain :
    resolvableChainB (statesOfKind a .single ++ statesOfKind a .ambiguous)
      (statesOfKind a .polymorphic) = true

/-- Well-formedness of a DNA matrix over the taxa block `tset` with the
single state alphabet `sa` (spec §3: one alphabet owned by the matrix;
every cell value drawn from its column's alphabet; mandatory ids). -/
structure WFDna (m : DnaMatrix) (sa : StateAlphabet) (tset : List TaxonRef) : Prop where
  oid_some : m.oid.isSome
  alph : m.stateAlphabets = [sa]
  wfa : WFAlphabet sa
  default_none : m.defaultStateAlphabet = none
  row_oid_some : ∀ p ∈ m.rows, p.2.oid.isSome
  taxon_oid_some : ∀ p ∈ m.rows, p.1.oid.isSome
  taxa_nodup : (m.rows.map fun p => p.1.oid).Nodup
  taxa_found : ∀ p ∈ m.rows,
    tset.find? (fun t => decide (t.oid = p.1.oid)) = some p.1
  cell_ct_none : ∀ p ∈ m.rows, ∀ c ∈ p.2.cells, c.characterType = none
  cell_value_mem : ∀ p ∈ m.rows, ∀ c ∈ p.2.cells, c.value ∈ sa.states

/-- The column types the writer's pass produces for a single-alphabet
matrix: `c0 … c(n-1)`, all referencing that alphabet. -/
def canonicalCts (sa : StateAlphabet) (n : Nat) : List CharacterType :=
  (List.range n).map fun i => ⟨some ("c" ++ natStr i), some sa⟩

/-- The full writer-pass accumulator for `n` columns. -/
def canonicalAcc (sa : StateAlphabet) (n : Nat) : ChartypeAcc :=
  ⟨canonicalCts sa n, (List.range n).map fun i => (i, ⟨some ("c" ++ natStr i), some sa⟩)⟩

/-- The alphabet record the parser rebuilds from a written alphabet: same
oid, no label, states reordered single/ambiguous/polymorphic. -/
def parsedAlph (a : StateAlphabet) : StateAlphabet :=
  ⟨a.oid, none, reorderStates a.states⟩

/-- The `<cell>` elements the writer emits for a row's cells starting at
column `k`: column reference `c<idx>` and the cell value's oid. -/
def cellElemsFrom : List CharCell → Nat → List CellElemR
  | [], _ => []
  | c :: rest, k =>
    ⟨some ("c" ++ natStr k), some (pyStrOpt c.value.oid)⟩ :: cellElemsFrom rest (k + 1)

/-- The cells the parser rebuilds for one row of a written single-alphabet
matrix starting at column `k`: each original cell value, tagged with the
canonical column type of its position over the parsed alphabet. -/
def seqCellsFrom (sa' : StateAlphabet) : List CharCell → Nat → List (Option CharCell)
  | [], _ => []
  | c :: rest, k =>
    some ⟨c.value, some ⟨some ("c" ++ natStr k), some sa'⟩⟩
      :: seqCellsFrom sa' rest (k + 1)

/-- The number of columns the writer's pass discovers: the longest row. -/
def maxRowLen (rows : List (TaxonRef × CharRow)) : Nat :=
  rows.foldl (fun n p => max n p.2.cells.length) 0

/-- The characters of a cell's symbol (empty if the symbol is missing). -/
def cellSymChars (c : CharCell) : List Char := (c.value.symbol.getD "").toList

/-- The taxon-oid→cell-values mapping of an original matrix. -/
def dnaMapping (m : DnaMatrix) : List (TaxonRef × List (Option SAE)) :=
  m.rows.map fun p => (p.1, p.2.cells.map fun c => some c.value)

/-- The taxon-oid→cell-values mapping of a parsed matrix. -/
def parsedMapping (pm : ParsedCharMatrix) : List (TaxonRef × List (Option SAE)) :=
  pm.rows.map fun p => (p.1, p.2.map (Option.map CharCell.value))

/-! ### Concrete instances used by witnesses and counterexamples -/

/-- A concrete taxon (identity handle 0). -/
def wTaxon : Taxon := ⟨0, "a"⟩

/-- A second concrete taxon (identity handle 1). -/
def wTaxon2 : Taxon := ⟨1, "b"⟩

/-- A concrete namespace holding `wTaxon` at accession index 0. -/
def wNs : TaxonNamespace :=
  { taxa := [wTaxon]
    accessionIndexTaxonMap := [(0, wTaxon)]
    taxonAccessionIndexMap := [(0, 0)]
    taxonBitmaskMap := []
    currentAccessionCount := 1
    isMutable := true }

/-- A concrete namespace holding `wTaxon` and `wTaxon2`. -/
def wNs2 : TaxonNamespace :=
  { taxa := [wTaxon, wTaxon2]
    accessionIndexTaxonMap := [(0, wTaxon), (1, wTaxon2)]
    taxonAccessionIndexMap := [(0, 0), (1, 1)]
    taxonBitmaskMap := []
    currentAccessionCount := 2
    isMutable := true }

/-- Node records A–D with labels equal to their ids. -/
def wNodeA : NodeRecord := ⟨some "A", some "A", none⟩

/-- Node record B. -/
def wNodeB : NodeRecord := ⟨some "B", some "B", none⟩

/-- Node record C. -/
def wNodeC : NodeRecord := ⟨some "C", some "C", none⟩

/-- Node record D. -/
def wNodeD : NodeRecord := ⟨some "D", some "D", none⟩

/-- The concrete DNA states A, C, G, T and the ambiguity state N. -/
def wStA : SAE := ⟨some "sA", none, some "A", none, .single, []⟩

/-- State C. -/
def wStC : SAE := ⟨some "sC", none, some "C", none, .single, []⟩

/-- State G. -/
def wStG : SAE := ⟨some "sG", none, some "G", none, .single, []⟩

/-- State T. -/
def wStT : SAE := ⟨some "sT", none, some "T", none, .single, []⟩

/-- Ambiguity state N = {A, C, G, T}. -/
def wStN : SAE :=
  ⟨some "sN", none, some "N", none, .ambiguous,
   [some "sA", some "sC", some "sG", some "sT"]⟩

/-- A concrete five-state DNA alphabet. -/
def wAlph : StateAlphabet := ⟨some "sa1", none, [wStA, wStC, wStG, wStT, wStN]⟩

/-- Concrete row taxa. -/
def wTax1 : TaxonRef := ⟨some "t1", some "Tax1"⟩

/-- Second row taxon. -/
def wTax2 : TaxonRef := ⟨some "t2", some "Tax2"⟩

/-- A concrete row `AN` for `wTax1`. -/
def wRow1 : CharRow := ⟨some "r1", none, [⟨wStA, none⟩, ⟨wStN, none⟩]⟩

/-- A concrete row `GT` for `wTax2`. -/
def wRow2 : CharRow := ⟨some "r2", none, [⟨wStG, none⟩, ⟨wStT, none⟩]⟩

/-- A concrete sequence-markup DNA matrix. -/
def wMatSeq : DnaMatrix :=
  ⟨some "m1", none, "otus1", [wAlph], none, true, [(wTax1, wRow1), (wTax2, wRow2)]⟩

/-- The same matrix in cell markup. -/
def wMatCells : DnaMatrix :=
  ⟨some "m1", none, "otus1", [wAlph], none, false, [(wTax1, wRow1), (wTax2, wRow2)]⟩

/-- The node records of the star-tree fixture (C8). -/
def wStarNodeRecs : List NodeRecord := [wNodeA, wNodeB, wNodeC, wNodeD]

/-- The edge records of the star-tree fixture, in declaration order
A→B, A→C, A→D. -/
def wStarEdgeRecs : List EdgeRecord :=
  [⟨some "e1", some "A", some "B", none⟩,
   ⟨some "e2", some "A", some "C", none⟩,
   ⟨some "e3", some "A", some "D", none⟩]

/-- The instantiated nodes of the star tree. -/
def wStarNodes : Dict (Option String) NodeState :=
  (parse_nodes wStarNodeRecs [] true).toOption.getD []

/-- The parsed edges of the star tree. -/
def wStarEdges : Dict String Edge :=
  (parse_edges wStarEdgeRecs .floatTree).toOption.getD []

/-- The star tree's nodes after edge attachment (edges iterated in the
Python 2 dict's hash order). -/
def wStarNodes2 : Dict (Option String) NodeState :=
  (attach_edges wStarNodes (py2Values wStarEdges)).toOption.getD []

/-- The star tree parsed end to end. -/
def wStarTree : Except PyErr ParsedTree :=
  parse_tree "tree1" .floatTree wStarNodeRecs wStarEdgeRecs none []

/-- A concrete characters element whose row holds the sequence `AX`, where
`X` is not a symbol of the declared two-column alphabet. -/
def wBadChars : CharsElemR :=
  ⟨some "nex:DnaSeqs", some "m1", none, some "otus1", true,
   [⟨some "sa1", none,
     [⟨.single, some "sA", none, some "A", none, []⟩,
      ⟨.single, some "sC", none, some "C", none, []⟩]⟩],
   [⟨some "c0", some "sa1"⟩, ⟨some "c1", some "sa1"⟩], true,
   [⟨some "r1", none, some "t1", some "AX", []⟩]⟩

/-- The same characters element with a three-symbol sequence against the
two declared columns. -/
def wLongChars : CharsElemR :=
  { wBadChars with rows := [⟨some "r1", none, some "t1", some "ACA", []⟩] }

/-- The two-state alphabet {A, C} as the parser of `wBadChars` builds it. -/
def wAlphAC : StateAlphabet :=
  ⟨some "sa1", none,
   [⟨some "sA", none, some "A", none, .single, []⟩,
    ⟨some "sC", none, some "C", none, .single, []⟩]⟩

/-- The two parsed columns of `wBadChars`, both over `wAlphAC`. -/
def wCtsAC : List CharacterType :=
  [⟨some "c0", some wAlphAC⟩, ⟨some "c1", some wAlphAC⟩]

/-! ## Theorems -/

/-! ### Dict lemmas -/

theorem Dict.lookup_insert_self {K V : Type} [DecidableEq K] (m : Dict K V)
    (k : K) (v : V) : (m.insert k v).lookup k = some v := by
  induction m with
  | nil => simp [Dict.insert, Dict.lookup]
  | cons p rest ih =>
    by_cases h : p.1 = k
    · simp [Dict.insert, Dict.lookup, h]
    · simpa [Dict.insert, Dict.lookup, h] using ih

theorem Dict.lookup_insert_ne {K V : Type} [DecidableEq K] (m : Dict K V)
    {k' k : K} (v : V) (h : k' ≠ k) :
    (m.insert k' v).lookup k = m.lookup k := by
  induction m with
  | nil => simp [Dict.insert, Dict.lookup, h]
  | cons p rest ih =>
    by_cases hp : p.1 = k'
    · simp [Dict.insert, Dict.lookup, hp, h]
    · simp only [Dict.insert, hp, if_false]
      by_cases hk : p.1 = k <;> simp [Dict.lookup, hk, ih]

theorem Dict.insert_of_lookup_some {K V : Type} [DecidableEq K] (m : Dict K V)
    {k : K} {v : V} (h : m.lookup k = some v) : m.insert k v = m := by
  induction m with
  | nil => simp [Dict.lookup] at h
  | cons p rest ih =>
    by_cases hp : p.1 = k
    · simp only [Dict.lookup, hp, if_true] at h
      cases p
      simp_all [Dict.insert]
    · simp only [Dict.lookup, hp, if_false] at h
      simp [Dict.insert, hp, ih h]

theorem Dict.insert_of_lookup_none {K V : Type} [DecidableEq K] (m : Dict K V)
    {k : K} (v : V) (h : m.lookup k = none) : m.insert k v = m ++ [(k, v)] := by
  induction m with
  | nil => simp [Dict.insert]
  | cons p rest ih =>
    by_cases hp : p.1 = k
    · simp [Dict.lookup, hp] at h
    · simp only [Dict.lookup, hp, if_false] at h
      simp [Dict.insert, hp, ih h]

theorem Dict.pop_fst {K V : Type} [DecidableEq K] (m : Dict K V) (k : K) :
    (m.pop k).1 = m.lookup k := by
  induction m with
  | nil => simp [Dict.pop, Dict.lookup]
  | cons p rest ih =>
    by_cases hp : p.1 = k
    · cases p; simp_all [Dict.pop, Dict.lookup]
    · cases p; simp_all [Dict.pop, Dict.lookup]

theorem Dict.lookup_pop_self {K V : Type} [DecidableEq K] (m : Dict K V)
    (k : K) (h : m.NodupKeys) : ((m.pop k).2).lookup k = none := by
  induction m with
  | nil => simp [Dict.pop, Dict.lookup]
  | cons p rest ih =>
    simp only [Dict.NodupKeys, Dict.keys, List.map_cons, List.nodup_cons] at h
    by_cases hp : p.1 = k
    · cases p with
      | mk k0 v0 =>
        simp only at hp
        subst hp
        simp only [Dict.pop, if_true]
        cases hl : Dict.lookup rest k0 with
        | none => rfl
        | some v =>
          exfalso
          have : k0 ∈ rest.map Prod.fst := by
            clear ih h
            induction rest with
            | nil => simp [Dict.lookup] at hl
            | cons q qs ihq =>
              by_cases hq : q.1 = k0
              · simp [hq]
              · simp only [Dict.lookup, hq, if_false] at hl
                simp [ihq hl]
          exact h.1 this
    · cases p with
      | mk k0 v0 =>
        simp only at hp
        simp only [Dict.pop, hp, if_false]
        simp only [Dict.lookup, hp, if_false]
        exact ih h.2

theorem Dict.lookup_append {K V : Type} [DecidableEq K] (m₁ m₂ : Dict K V)
    (k : K) :
    Dict.lookup (m₁ ++ m₂) k =
      match m₁.lookup k with
      | some v => some v
      | none => m₂.lookup k := by
  induction m₁ with
  | nil => simp [Dict.lookup]
  | cons p rest ih =>
    by_cases hp : p.1 = k
    · cases p; simp_all [Dict.lookup]
    · cases p; simp_all [Dict.lookup]

/-! ### Decimal rendering: `natStr` is injective -/

theorem digitsRevF_lt_ten (f n : Nat) : ∀ d ∈ digitsRevF f n, d < 10 := by
  induction f generalizing n with
  | zero => cases n <;> simp [digitsRevF]
  | succ f ih =>
    cases n with
    | zero => simp [digitsRevF]
    | succ m =>
      intro d hd
      simp only [digitsRevF, List.mem_cons] at hd
      rcases hd with h | h
      · subst h; exact Nat.mod_lt _ (by omega)
      · exact ih _ d h

theorem ofDigitsRev_digitsRevF (f n : Nat) (h : n ≤ f) :
    ofDigitsRev (digitsRevF f n) = n := by
  induction f generalizing n with
  | zero =>
    interval_cases n
    simp [digitsRevF, ofDigitsRev]
  | succ f ih =>
    cases n with
    | zero => simp [digitsRevF, ofDigitsRev]
    | succ m =>
      have hdiv : (m + 1) / 10 ≤ f := by
        have : (m + 1) / 10 < m + 1 := Nat.div_lt_self (by omega) (by omega)
        omega
      simp only [digitsRevF, ofDigitsRev, ih _ hdiv]
      omega

theorem digitsRev_inj {a b : Nat} (h : digitsRev a = digitsRev b) : a = b := by
  have ha := ofDigitsRev_digitsRevF a a le_rfl
  have hb := ofDigitsRev_digitsRevF b b le_rfl
  simp only [digitsRev] at h
  rw [← ha, ← hb, h]

theorem digitChar48_inj {d e : Nat} (hd : d < 10) (he : e < 10)
    (h : digitChar48 d = digitChar48 e) : d = e := by
  have : ∀ x, x < 10 → ∀ y, y < 10 → digitChar48 x = digitChar48 y → x = y := by
    decide
  exact this d hd e he h

theorem map_digitChar48_inj {l₁ l₂ : List Nat} (h₁ : ∀ d ∈ l₁, d < 10)
    (h₂ : ∀ d ∈ l₂, d < 10) (h : l₁.map digitChar48 = l₂.map digitChar48) :
    l₁ = l₂ := by
  induction l₁ generalizing l₂ with
  | nil => cases l₂ <;> simp_all
  | cons d rest ih =>
    cases l₂ with
    | nil => simp at h
    | cons e rest₂ =>
      simp only [List.map_cons, List.cons.injEq] at h
      have hde := digitChar48_inj (h₁ d (by simp)) (h₂ e (by simp)) h.1
      have := ih (fun x hx => h₁ x (by simp [hx]))
        (fun x hx => h₂ x (by simp [hx])) h.2
      simp [hde, this]

theorem digitsRev_ne_nil {n : Nat} (h : n ≠ 0) : digitsRev n ≠ [] := by
  cases n with
  | zero => exact absurd rfl h
  | succ m => simp [digitsRev, digitsRevF]

theorem natStr_injective : Function.Injective natStr := by
  intro a b h
  by_cases ha : a = 0 <;> by_cases hb : b = 0
  · rw [ha, hb]
  · exfalso
    simp only [natStr, ha, hb, if_true, if_false] at h
    have hinj : (digitsRev b).reverse.map digitChar48 = ['0'] := by
      have := congrArg String.data h
      simpa using this.symm
    have : digitsRev b = [0] := by
      have h10 : ((0 : Nat) :: []).map digitChar48 = ['0'] := by decide
      have := @map_digitChar48_inj (digitsRev b).reverse [0]
        (by intro d hd; exact digitsRevF_lt_ten b b d (List.mem_reverse.mp hd))
        (by intro d hd; simp at hd; omega)
        (by rw [hinj, h10])
      have hrev := congrArg List.reverse this
      simpa using hrev
    have hv := ofDigitsRev_digitsRevF b b le_rfl
    rw [show digitsRevF b b = ([0] : List Nat) from this] at hv
    simp [ofDigitsRev] at hv
    exact hb hv.symm
  · exfalso
    simp only [natStr, ha, hb, if_true, if_false] at h
    have hinj : (digitsRev a).reverse.map digitChar48 = ['0'] := by
      have := congrArg String.data h
      simpa using this
    have : digitsRev a = [0] := by
      have h10 : ((0 : Nat) :: []).map digitChar48 = ['0'] := by decide
      have := @map_digitChar48_inj (digitsRev a).reverse [0]
        (by intro d hd; exact digitsRevF_lt_ten a a d (List.mem_reverse.mp hd))
        (by intro d hd; simp at hd; omega)
        (by rw [hinj, h10])
      have hrev := congrArg List.reverse this
      simpa using hrev
    have hv := ofDigitsRev_digitsRevF a a le_rfl
    rw [show digitsRevF a a = ([0] : List Nat) from this] at hv
    simp [ofDigitsRev] at hv
    exact ha hv.symm
  · simp only [natStr, ha, hb, if_false] at h
    have hdata := congrArg String.data h
    simp only at hdata
    have := @map_digitChar48_inj (digitsRev a).reverse (digitsRev b).reverse
      (by intro d hd; exact digitsRevF_lt_ten a a d (List.mem_reverse.mp hd))
      (by intro d hd; exact digitsRevF_lt_ten b b d (List.mem_reverse.mp hd))
      hdata
    have hrev := congrArg List.reverse this
    simp only [List.reverse_reverse] at hrev
    exact digitsRev_inj hrev

theorem colOid_inj {i j : Nat} (h : "c" ++ natStr i = "c" ++ natStr j) : i = j := by
  apply natStr_injective
  have hd := congrArg String.data h
  simp only [String.data_append] at hd
  exact String.ext (List.append_cancel_left hd)

/-! ### TaxonNamespace claims -/

/-- C1: for every Taxon `t` registered in a TaxonNamespace `ns` (in a state
with a coherent bitmask cache), `taxon_bitmask t` returns
`1 <<< accession_index t`, and the value is memoized: the call leaves a
state on which a repeated call returns the same value without further
change, with the accession index unchanged. -/
theorem taxon_bitmask_eq_shl_accession_index (ns : TaxonNamespace)
    (t : Taxon) (i : Nat) (hco : ns.BitmaskCacheCoherent)
    (hidx : ns.accession_index t = .ok i) :
    ∃ ns', ns.taxon_bitmask t = .ok (1 <<< i, ns')
      ∧ ns'.taxon_bitmask t = .ok (1 <<< i, ns')
      ∧ ns'.accession_index t = .ok i := by
  have hl : ns.taxonAccessionIndexMap.lookup t.tid = some i := by
    unfold TaxonNamespace.accession_index at hidx
    cases h : ns.taxonAccessionIndexMap.lookup t.tid with
    | none => rw [h] at hidx; exact absurd hidx (by simp)
    | some j => rw [h] at hidx; cases hidx; rfl
  cases hc : ns.taxonBitmaskMap.lookup t.tid with
  | some m =>
    obtain ⟨j, hj, hm⟩ := hco t.tid m hc
    rw [hl] at hj
    cases hj
    refine ⟨ns, ?_, ?_, ?_⟩
    · unfold TaxonNamespace.taxon_bitmask
      rw [hc, hm]
    · unfold TaxonNamespace.taxon_bitmask
      rw [hc, hm]
    · unfold TaxonNamespace.accession_index
      rw [hl]
  | none =>
    refine ⟨{ ns with taxonBitmaskMap :=
        ns.taxonBitmaskMap.insert t.tid (1 <<< i) }, ?_, ?_, ?_⟩
    · unfold TaxonNamespace.taxon_bitmask
      rw [hc, hl]
    · unfold TaxonNamespace.taxon_bitmask
      simp only [Dict.lookup_insert_self]
    · unfold TaxonNamespace.accession_index
      simp only
      rw [hl]

/-- Witness for C1, at a namespace holding one taxon at accession index 0
with an empty bitmask cache. -/
theorem taxon_bitmask_eq_shl_accession_index_witness :
    ∃ ns', wNs.taxon_bitmask wTaxon = .ok (1 <<< 0, ns')
      ∧ ns'.taxon_bitmask wTaxon = .ok (1 <<< 0, ns')
      ∧ ns'.accession_index wTaxon = .ok 0 :=
  taxon_bitmask_eq_shl_accession_index wNs wTaxon 0
    (by intro tid m h; simp [wNs, Dict.lookup] at h) (by rfl)

/-- C4: `all_taxa_bitmask` equals `(1 <<< c) - 1` for the running accession
count `c`, and a successful `remove_taxon` leaves the count — and hence
`all_taxa_bitmask` — unchanged. -/
theorem all_taxa_bitmask_stable_under_remove (ns ns' : TaxonNamespace)
    (t : Taxon) (h : ns.remove_taxon t = .ok ns') :
    ns.all_taxa_bitmask = (1 <<< ns.currentAccessionCount) - 1
      ∧ ns'.currentAccessionCount = ns.currentAccessionCount
      ∧ ns'.all_taxa_bitmask = ns.all_taxa_bitmask := by
  unfold TaxonNamespace.remove_taxon at h
  by_cases hg : (ns.taxa.any fun x => x.tid = t.tid) = true
  · simp only [hg, Bool.not_true] at h
    rw [if_neg (by simp)] at h
    cases h
    exact ⟨rfl, rfl, rfl⟩
  · simp only [Bool.not_eq_true] at hg
    rw [hg] at h
    simp at h

/-- Witness for C4: removing the only taxon of a one-taxon namespace keeps
`all_taxa_bitmask` at 1. -/
theorem all_taxa_bitmask_stable_under_remove_witness :
    ∃ ns', wNs.remove_taxon wTaxon = .ok ns'
      ∧ (wNs.all_taxa_bitmask = (1 <<< wNs.currentAccessionCount) - 1
        ∧ ns'.currentAccessionCount = wNs.currentAccessionCount
        ∧ ns'.all_taxa_bitmask = wNs.all_taxa_bitmask) :=
  ⟨⟨[], [], [], [], 1, true⟩, by decide,
   all_taxa_bitmask_stable_under_remove wNs ⟨[], [], [], [], 1, true⟩ wTaxon
     (by decide)⟩

/-- C5: `add_taxon` is a no-op when the taxon is already registered
(identity membership), raises `ImmutableTaxonNamespaceError` when the
namespace is immutable and the taxon is new, and otherwise appends the
taxon to the list, assigns it the next accession index, and advances the
counter. -/
theorem add_taxon_contract (ns : TaxonNamespace) (t : Taxon) :
    (ns.containsTaxon t = true → ns.add_taxon t = .ok ns)
      ∧ (ns.containsTaxon t = false → ns.isMutable = false →
          ns.add_taxon t = .error (.immutableTaxonNamespaceError t.label))
      ∧ (ns.containsTaxon t = false → ns.isMutable = true →
          ∃ ns', ns.add_taxon t = .ok ns'
            ∧ ns'.taxa = ns.taxa ++ [t]
            ∧ ns'.accession_index t = .ok ns.currentAccessionCount
            ∧ ns'.currentAccessionCount = ns.currentAccessionCount + 1) := by
  refine ⟨?_, ?_, ?_⟩
  · intro hc
    unfold TaxonNamespace.add_taxon
    simp only [TaxonNamespace.containsTaxon] at hc
    simp [hc]
  · intro hc hm
    unfold TaxonNamespace.add_taxon
    simp only [TaxonNamespace.containsTaxon] at hc
    simp [hc, hm]
  · intro hc hm
    unfold TaxonNamespace.add_taxon
    simp only [TaxonNamespace.containsTaxon] at hc
    rw [if_neg (by simp [hc]), if_neg (by simp [hm])]
    exact ⟨_, rfl, rfl,
      by unfold TaxonNamespace.accession_index; simp only [Dict.lookup_insert_self],
      rfl⟩

/-- Witness for C5: the no-op case on a registered taxon and the
append/assign case on a fresh namespace. -/
theorem add_taxon_contract_witness :
    wNs.add_taxon wTaxon = .ok wNs
      ∧ ∃ ns', TaxonNamespace.empty.add_taxon wTaxon = .ok ns'
          ∧ ns'.taxa = TaxonNamespace.empty.taxa ++ [wTaxon]
          ∧ ns'.accession_index wTaxon = .ok TaxonNamespace.empty.currentAccessionCount
          ∧ ns'.currentAccessionCount = TaxonNamespace.empty.currentAccessionCount + 1 :=
  ⟨(add_taxon_contract wNs wTaxon).1 (by decide),
   (add_taxon_contract TaxonNamespace.empty wTaxon).2.2 (by decide) (by decide)⟩

/-- The walk of `bitmask_taxa_list` fails whenever some set bit of the
bitmask, counted from `index`, has no entry in the accession-index→taxon
map. -/
theorem bitmask_taxa_list_error_of_missing (ns : TaxonNamespace) :
    ∀ (j b idx : Nat), b.testBit j = true →
      ns.accessionIndexTaxonMap.lookup (idx + j) = none →
      ∃ e, ns.bitmask_taxa_list b idx = .error e := by
  intro j
  induction j with
  | zero =>
    intro b idx hb hmiss
    have hb0 : b ≠ 0 := by
      intro h; rw [h, Nat.zero_testBit] at hb; exact absurd hb (by simp)
    have hb2 : b % 2 = 1 := by
      rw [Nat.testBit_zero] at hb; exact of_decide_eq_true hb
    unfold TaxonNamespace.bitmask_taxa_list
    simp only [hb0, dif_neg, hb2, if_true]
    rw [Nat.add_zero] at hmiss
    rw [hmiss]
    exact ⟨_, rfl⟩
  | succ j ih =>
    intro b idx hb hmiss
    have hb0 : b ≠ 0 := by
      intro h; rw [h, Nat.zero_testBit] at hb; exact absurd hb (by simp)
    have hshift : (b >>> 1).testBit j = true := by
      rw [Nat.testBit_shiftRight]
      exact Nat.add_comm 1 j ▸ hb
    have hmiss' : ns.accessionIndexTaxonMap.lookup (idx + 1 + j) = none := by
      rw [show idx + 1 + j = idx + (j + 1) by omega]
      exact hmiss
    obtain ⟨e, he⟩ := ih (b >>> 1) (idx + 1) hshift hmiss'
    unfold TaxonNamespace.bitmask_taxa_list
    simp only [hb0, dif_neg]
    by_cases hb2 : b % 2 = 1
    · simp only [hb2, if_true]
      cases hl : ns.accessionIndexTaxonMap.lookup idx with
      | none => exact ⟨_, rfl⟩
      | some t => rw [he]; exact ⟨e, rfl⟩
    · simp only [hb2, if_false]
      exact ⟨e, he⟩

/-- The walk of `bitmask_taxa_list` succeeds when every set bit of the
bitmask, counted from `index`, has a registered taxon. -/
theorem bitmask_taxa_list_ok_of_all_present (ns : TaxonNamespace) :
    ∀ (b idx : Nat),
      (∀ j, b.testBit j = true →
        (ns.accessionIndexTaxonMap.lookup (idx + j)).isSome = true) →
      ∃ l, ns.bitmask_taxa_list b idx = .ok l := by
  intro b
  induction b using Nat.strong_induction_on with
  | _ b ih =>
    intro idx hall
    by_cases hb0 : b = 0
    · subst hb0
      exact ⟨[], by unfold TaxonNamespace.bitmask_taxa_list; simp⟩
    · have hlt : b >>> 1 < b :=
        Nat.shiftRight_succ b 0 ▸ Nat.div_lt_self (Nat.pos_of_ne_zero hb0) one_lt_two
      have hall' : ∀ j, (b >>> 1).testBit j = true →
          (ns.accessionIndexTaxonMap.lookup (idx + 1 + j)).isSome = true := by
        intro j hj
        rw [Nat.testBit_shiftRight] at hj
        rw [show idx + 1 + j = idx + (1 + j) by omega]
        exact hall (1 + j) hj
      obtain ⟨l, hl⟩ := ih (b >>> 1) hlt (idx + 1) hall'
      unfold TaxonNamespace.bitmask_taxa_list
      simp only [hb0, dif_neg]
      by_cases hb2 : b % 2 = 1
      · simp only [hb2, if_true]
        have h0 : b.testBit 0 = true := by
          rw [Nat.testBit_zero]; exact decide_eq_true hb2
        have := hall 0 h0
        rw [Nat.add_zero] at this
        cases hlk : ns.accessionIndexTaxonMap.lookup idx with
        | none => rw [hlk] at this; exact absurd this (by simp)
        | some t => rw [hl]; exact ⟨t :: l, rfl⟩
      · simp only [hb2, if_false]
        exact ⟨l, hl⟩

/-- C10: after a successful `remove_taxon t`, the accession-index→taxon
entry at `t`'s former index `i` is gone; `bitmask_taxa_list` on any bitmask
with bit `i` set fails with an uncaught lookup error, and it succeeds
exactly on bitmasks whose set bits all have registered taxa. -/
theorem bitmask_taxa_list_partial_after_remove (ns ns' : TaxonNamespace)
    (t : Taxon) (i : Nat) (bitmask : Nat)
    (hnd : ns.accessionIndexTaxonMap.NodupKeys)
    (hidx : ns.taxonAccessionIndexMap.lookup t.tid = some i)
    (hrm : ns.remove_taxon t = .ok ns')
    (hbit : bitmask.testBit i = true) :
    ns'.accessionIndexTaxonMap.lookup i = none
      ∧ (∃ e, ns'.bitmask_taxa_list bitmask 0 = .error e)
      ∧ (∀ b : Nat,
          (∀ j, b.testBit j = true →
            (ns'.accessionIndexTaxonMap.lookup j).isSome = true) →
          ∃ l, ns'.bitmask_taxa_list b 0 = .ok l) := by
  have haitm : ns'.accessionIndexTaxonMap = (ns.accessionIndexTaxonMap.pop i).2 := by
    unfold TaxonNamespace.remove_taxon at hrm
    by_cases hg : (ns.taxa.any fun x => x.tid = t.tid) = true
    · simp only [hg, Bool.not_true] at hrm
      rw [if_neg (by simp)] at hrm
      have hp1 : (ns.taxonAccessionIndexMap.pop t.tid).1 = some i := by
        rw [Dict.pop_fst]; exact hidx
      cases hrm
      simp only [hp1]
    · simp only [Bool.not_eq_true] at hg
      rw [hg] at hrm
      simp at hrm
  have hnone : ns'.accessionIndexTaxonMap.lookup i = none := by
    rw [haitm]
    exact Dict.lookup_pop_self _ i hnd
  refine ⟨hnone, ?_, ?_⟩
  · exact bitmask_taxa_list_error_of_missing ns' i bitmask 0 hbit
      (by rw [Nat.zero_add]; exact hnone)
  · intro b hall
    exact bitmask_taxa_list_ok_of_all_present ns' b 0
      (by intro j hj; rw [Nat.zero_add]; exact hall j hj)

/-- Witness for C10: removing taxon 0 of a two-taxon namespace makes
`bitmask_taxa_list 3` fail, while the bitmask of the remaining taxon
(bit 1) still succeeds. -/
theorem bitmask_taxa_list_partial_after_remove_witness :
    ∃ ns', wNs2.remove_taxon wTaxon = .ok ns'
      ∧ ns'.accessionIndexTaxonMap.lookup 0 = none
      ∧ (∃ e, ns'.bitmask_taxa_list 3 0 = .error e)
      ∧ (∀ b : Nat,
          (∀ j, b.testBit j = true →
            (ns'.accessionIndexTaxonMap.lookup j).isSome = true) →
          ∃ l, ns'.bitmask_taxa_list b 0 = .ok l) := by
  refine ⟨⟨[wTaxon2], [(1, wTaxon2)], [(1, 1)], [], 2, true⟩, by decide, ?_⟩
  exact bitmask_taxa_list_partial_after_remove wNs2
    ⟨[wTaxon2], [(1, wTaxon2)], [(1, 1)], [], 2, true⟩ wTaxon 0 3
    (by unfold Dict.NodupKeys; decide) (by decide) (by decide) (by decide)

/-! ### Tree-construction claims -/

/-- C2: once the nodes are instantiated, the edges parsed and attached,
exactly one parentless node makes that node the tree's seed (root); zero
parentless nodes fail with the "not acyclic" structural error; and the
concrete cyclic edge set A→B, B→A raises exactly that error. -/
theorem root_determination (treeOid : String) (lt : LengthType)
    (nodeRecs : List NodeRecord) (edgeRecs : List EdgeRecord)
    (taxonOids : List String)
    (nodes : Dict (Option String) NodeState) (edges : Dict String Edge)
    (nodes2 : Dict (Option String) NodeState)
    (hn : parse_nodes nodeRecs taxonOids true = .ok nodes)
    (he : parse_edges edgeRecs lt = .ok edges)
    (ha : attach_edges nodes (py2Values edges) = .ok nodes2) :
    ((∃ x, determine_parentless nodes2 = [x]) →
      ∃ t x, parse_tree treeOid lt nodeRecs edgeRecs none taxonOids = .ok t
        ∧ determine_parentless nodes2 = [x] ∧ t.seed = .parsed x)
      ∧ (determine_parentless nodes2 = [] →
        parse_tree treeOid lt nodeRecs edgeRecs none taxonOids = .error .notAcyclic)
      ∧ parse_tree "t" .floatTree [wNodeA, wNodeB]
          [⟨some "e1", some "A", some "B", none⟩,
           ⟨some "e2", some "B", some "A", none⟩] none [] = .error .notAcyclic := by
  refine ⟨?_, ?_, by decide⟩
  · rintro ⟨x, hx⟩
    have hp : parse_tree treeOid lt nodeRecs edgeRecs none taxonOids =
        .ok ⟨treeOid, lt, .parsed x,
             dictUpdate nodes2 x (fun n => { n with edge := none }), none⟩ := by
      simp only [parse_tree, hn, he, ha, hx, parse_root_edge]
    exact ⟨_, x, hp, hx, rfl⟩
  · intro hx
    simp only [parse_tree, hn, he, ha, hx, parse_root_edge]

/-- Witness for C2, on the star tree: node A is the unique parentless node
and becomes the seed. -/
theorem root_determination_witness :
    ∃ t x, parse_tree "tree1" .floatTree wStarNodeRecs wStarEdgeRecs none [] = .ok t
      ∧ determine_parentless wStarNodes2 = [x] ∧ t.seed = .parsed x :=
  (root_determination "tree1" .floatTree wStarNodeRecs wStarEdgeRecs []
      wStarNodes wStarEdges wStarNodes2 (by rfl) (by rfl) (by rfl)).1
    ⟨some "A", by decide⟩

/-- C8 (amended): node records {A, B, C, D} with edges A→B, A→C, A→D (A
has no incoming edge) build a tree with root A and exactly three children —
but `nexml.py` is Python 2 source and `edges` a plain dict, so
`edges.values()` iterates in hash-table slot order: CPython 2.7 places
`e1`, `e2`, `e3` at slots 4, 7, 6 of the 8-slot table, the edges are
attached in the order e1, e3, e2, and A's children come out B, D, C — not
the edge-declaration order B, C, D. -/
theorem star_tree_children_hash_order :
    (py2Values wStarEdges).map Edge.oid = ["e1", "e3", "e2"]
      ∧ wStarTree.map ParsedTree.seed = .ok (.parsed (some "A"))
      ∧ wStarTree.map (fun t => (t.nodes.lookup (some "A")).map NodeState.children)
        = .ok (some [some "B", some "D", some "C"])
      ∧ wStarTree.map
          (fun t => (t.nodes.lookup (some "A")).map fun n => n.children.length)
        = .ok (some 3)
      ∧ wStarTree.map
          (fun t => [(t.nodes.lookup (some "B")).map NodeState.label,
                     (t.nodes.lookup (some "C")).map NodeState.label,
                     (t.nodes.lookup (some "D")).map NodeState.label])
        = .ok [some (some "B"), some (some "C"), some (some "D")] := by
  decide

/-- C8 counterexample: the claimed edge-declaration order fails — on the
star fixture the root's children are [B, D, C], which is not the claimed
[B, C, D]. -/
theorem star_tree_declaration_order_counterexample :
    wStarTree.map (fun t => (t.nodes.lookup (some "A")).map NodeState.children)
      = .ok (some [some "B", some "D", some "C"])
      ∧ wStarTree.map (fun t => (t.nodes.lookup (some "A")).map NodeState.children)
        ≠ .ok (some [some "B", some "C", some "D"]) := by
  decide

/-- C6 (divergence witness): an edge whose target id resolves to no
instantiated node makes the parse fail — but, with a non-empty node dict,
with the `AttributeError` raised while the reference-error message is being
built (`[n.oid for n in nodes]` iterates the dict's keys, which are
strings), which names neither the edge id nor the target id.  The intended
reference error is only produced when the node dict is empty. -/
theorem undefined_target_attribute_error :
    parse_tree "t" .floatTree [wNodeA]
        [⟨some "e1", some "A", some "Z", none⟩] none []
      = .error .strHasNoAttrOid
      ∧ (PyErr.strHasNoAttrOid).named = []
      ∧ attach_edges [] [⟨"e1", none, some "Z", .vfloat "0.0", false⟩]
        = .error (.edgeUndefinedTarget "e1" (some "Z"))
      ∧ parse_tree "t" .floatTree []
          [⟨some "e1", some "A", some "Z", none⟩] none []
        = .error (.edgeUndefinedSource "e1" (some "A") []) := by
  decide

/-- C7 (divergence witness): a length value that fails to parse in the
tree's length type raises the bare `ValueError` of the unguarded first
conversion (`edge_length_str = length_type(nxedge.get('length', 0.0))`),
which names only the offending string — the guarded conversion whose
`except` branch would name the edge id and the expected type is never
reached with an unconverted value. -/
theorem edge_length_bare_value_error :
    parse_edges [⟨some "e1", some "A", some "B", some "xyz"⟩] .floatTree
      = .error (.valueErrorLiteral "xyz")
      ∧ parse_edges [⟨some "e1", some "A", some "B", some "3.5"⟩] .intTree
        = .error (.valueErrorLiteral "3.5")
      ∧ (PyErr.valueErrorLiteral "3.5").named = ["3.5"] := by
  decide

/-! ### C9: sequence-markup symbol resolution -/

/-- C9 counterexample: on a matrix (oid `m1`) whose row `r1` belongs to the
taxon labeled `Tax1` and whose sequence `AX` holds the unresolvable symbol
`X` at position 1, the parse fails with the `symbolNotDefined` error — and
the error's message does not name the taxon: `Tax1` is not among the
interpolated values (which are matrix oid, row id, position, symbol and
sequence). -/
theorem seq_symbol_error_counterexample :
    parse_char_matrix_dna wBadChars [("otus1", [wTax1])] true
      = .error (.symbolNotDefined (some "m1") (some "r1") 1 'X' "AX")
      ∧ "Tax1" ∉ (PyErr.symbolNotDefined (some "m1") (some "r1") 1 'X' "AX").named := by
  decide

/-- C9 (amended): in the discrete sequence-markup loop, the symbol at
position N is resolved against the Nth declared column's state-alphabet
symbol table (resolving appends the state as the cell and advances); a
symbol not found there raises the fatal `symbolNotDefined` error whose
message names the matrix, row, position, symbol and (stripped) sequence —
but not the taxon; and a sequence with more symbols than declared columns
raises an uncaught `IndexError` from the unguarded column subscript (the
guarded "column not defined" error is dead code). -/
theorem seq_symbol_resolution (mo ri tl : Option String)
    (cts : List CharacterType) (seq : String) (ch : Char) (rest : List Char)
    (colIdx : Nat) (acc : List (Option CharCell)) :
    (∀ ct a st, cts.get? colIdx = some ct → ct.stateAlphabet = some a →
      (symbol_state_map a).lookup ch.toString = some st →
      parse_seq_symbols mo ri tl cts seq (ch :: rest) colIdx acc
        = parse_seq_symbols mo ri tl cts seq rest (colIdx + 1)
            (acc ++ [some ⟨st, some ct⟩]))
      ∧ (∀ ct a, cts.get? colIdx = some ct → ct.stateAlphabet = some a →
        (symbol_state_map a).lookup ch.toString = none →
        parse_seq_symbols mo ri tl cts seq (ch :: rest) colIdx acc
          = .error (.symbolNotDefined mo ri colIdx ch seq)
        ∧ (PyErr.symbolNotDefined mo ri colIdx ch seq).named
            = [pyStrOpt mo, pyStrOpt ri, natStr colIdx, ch.toString, seq])
      ∧ (cts.length ≤ colIdx →
        parse_seq_symbols mo ri tl cts seq (ch :: rest) colIdx acc
          = .error .indexError) := by
  refine ⟨?_, ?_, ?_⟩
  · intro ct a st hct ha hst
    have hlt : ¬ cts.length ≤ colIdx := by
      intro hle
      rw [List.get?_eq_none.mpr hle] at hct
      exact absurd hct (by simp)
    simp only [parse_seq_symbols, hct, ha, hst, if_neg hlt]
  · intro ct a hct ha hst
    refine ⟨?_, rfl⟩
    simp only [parse_seq_symbols, hct, ha, hst]
  · intro hle
    simp only [parse_seq_symbols, List.get?_eq_none.mpr hle]

/-- Witness for C9 (amended), on the `wBadChars` fixture: position 0
resolves `A`; position 1 fails on `X` with the error naming matrix `m1`,
row `r1`, position 1, symbol `X` and sequence `AX`; and position 2 (beyond
the two declared columns) is an `IndexError`. -/
theorem seq_symbol_resolution_witness :
    (parse_seq_symbols (some "m1") (some "r1") (some "Tax1") wCtsAC "AX"
        ['A', 'X'] 0 []
      = parse_seq_symbols (some "m1") (some "r1") (some "Tax1") wCtsAC "AX"
          ['X'] 1
          [some ⟨⟨some "sA", none, some "A", none, .single, []⟩,
                some ⟨some "c0", some wAlphAC⟩⟩])
      ∧ parse_seq_symbols (some "m1") (some "r1") (some "Tax1") wCtsAC "AX"
          ['X'] 1 [some ⟨⟨some "sA", none, some "A", none, .single, []⟩,
                         some ⟨some "c0", some wAlphAC⟩⟩]
        = .error (.symbolNotDefined (some "m1") (some "r1") 1 'X' "AX")
      ∧ parse_seq_symbols (some "m1") (some "r1") (some "Tax1") wCtsAC "ACA"
          ['A'] 2 []
        = .error .indexError :=
  ⟨(seq_symbol_resolution (some "m1") (some "r1") (some "Tax1") wCtsAC "AX"
      'A' ['X'] 0 []).1 ⟨some "c0", some wAlphAC⟩ wAlphAC
      ⟨some "sA", none, some "A", none, .single, []⟩
      (by decide) (by decide) (by decide),
   ((seq_symbol_resolution (some "m1") (some "r1") (some "Tax1") wCtsAC "AX"
      'X' [] 1 [some ⟨⟨some "sA", none, some "A", none, .single, []⟩,
                      some ⟨some "c0", some wAlphAC⟩⟩]).2.1
      ⟨some "c1", some wAlphAC⟩ wAlphAC
      (by decide) (by decide) (by decide)).1,
   (seq_symbol_resolution (some "m1") (some "r1") (some "Tax1") wCtsAC "ACA"
      'A' [] 2 []).2.2 (by decide)⟩

/-! ### Fold-lookup lemmas for the symbol/id maps -/

theorem foldl_insert_lookup_none {K V : Type} [DecidableEq K] (key : V → Option K)
    (step : Dict K V → V → Dict K V)
    (hstep_some : ∀ m v k', key v = some k' → step m v = Dict.insert m k' v)
    (hstep_none : ∀ m v, key v = none → step m v = m)
    (l : List V) (acc : Dict K V) (k : K) (h : ∀ v ∈ l, key v ≠ some k) :
    Dict.lookup (l.foldl step acc) k = Dict.lookup acc k := by
  induction l generalizing acc with
  | nil => rfl
  | cons v rest ih =>
    simp only [List.foldl_cons]
    rw [ih _ (fun w hw => h w (by simp [hw]))]
    cases hkv : key v with
    | none => rw [hstep_none _ _ hkv]
    | some k' =>
      have hne : k' ≠ k := by
        intro he; exact h v (by simp) (by rw [hkv, he])
      rw [hstep_some _ _ _ hkv]
      exact Dict.lookup_insert_ne acc v hne

theorem foldl_insert_lookup_stable {K V : Type} [DecidableEq K] (key : V → Option K)
    (step : Dict K V → V → Dict K V)
    (hstep_some : ∀ m v k', key v = some k' → step m v = Dict.insert m k' v)
    (hstep_none : ∀ m v, key v = none → step m v = m)
    (l : List V) (acc : Dict K V) (k : K) (v0 : V)
    (hacc : Dict.lookup acc k = some v0) (h : ∀ v ∈ l, key v = some k → v = v0) :
    Dict.lookup (l.foldl step acc) k = some v0 := by
  induction l generalizing acc with
  | nil => exact hacc
  | cons v rest ih =>
    simp only [List.foldl_cons]
    refine ih _ ?_ (fun w hw => h w (by simp [hw]))
    cases hkv : key v with
    | none => rw [hstep_none _ _ hkv]; exact hacc
    | some k' =>
      rw [hstep_some _ _ _ hkv]
      by_cases hk : k' = k
      · subst hk
        have : v = v0 := h v (by simp) hkv
        subst this
        exact Dict.lookup_insert_self acc k' v
      · rw [Dict.lookup_insert_ne acc v hk]
        exact hacc

theorem foldl_insert_lookup_mem {K V : Type} [DecidableEq K] (key : V → Option K)
    (step : Dict K V → V → Dict K V)
    (hstep_some : ∀ m v k', key v = some k' → step m v = Dict.insert m k' v)
    (hstep_none : ∀ m v, key v = none → step m v = m)
    (l : List V) (k : K) (v : V) (hv : v ∈ l) (hk : key v = some k)
    (huniq : ∀ w ∈ l, key w = some k → w = v) :
    Dict.lookup (l.foldl step []) k = some v := by
  have aux : ∀ (l' : List V) (acc : Dict K V), v ∈ l' →
      (∀ w ∈ l', key w = some k → w = v) →
      Dict.lookup acc k = none ∨ Dict.lookup acc k = some v →
      Dict.lookup (l'.foldl step acc) k = some v := by
    intro l'
    induction l' with
    | nil => intro acc hmem; simp at hmem
    | cons w rest ih =>
      intro acc hmem huq hacc
      simp only [List.foldl_cons]
      rcases List.mem_cons.mp hmem with hwv | hvrest
      · subst hwv
        rw [hstep_some _ _ _ hk]
        by_cases hvr : v ∈ rest
        · exact ih _ hvr (fun x hx h => huq x (by simp [hx]) h)
            (Or.inr (Dict.lookup_insert_self acc k v))
        · refine foldl_insert_lookup_stable key step hstep_some hstep_none rest _ k v
            (Dict.lookup_insert_self acc k v) ?_
          intro x hx hxk
          exact huq x (by simp [hx]) hxk
      · refine ih _ hvrest (fun x hx h => huq x (by simp [hx]) h) ?_
        cases hkw : key w with
        | none => rw [hstep_none _ _ hkw]; exact hacc
        | some k' =>
          rw [hstep_some _ _ _ hkw]
          by_cases hkk : k' = k
          · right
            have hwv2 : w = v := huq w (by simp) (by rw [hkw, hkk])
            rw [hkk, hwv2]
            exact Dict.lookup_insert_self acc k v
          · rw [Dict.lookup_insert_ne acc w hkk]
            exact hacc
  exact aux l [] hv huniq (Or.inl rfl)

/-- `symbol_state_map` lookup: with pairwise-distinct symbols, a state's
symbol maps to that state. -/
theorem symbol_state_map_lookup (a : StateAlphabet) (st : SAE) (sym : String)
    (hmem : st ∈ a.states) (hsym : st.symbol = some sym)
    (hnd : (a.states.map SAE.symbol).Nodup) :
    (symbol_state_map a).lookup sym = some st := by
  refine foldl_insert_lookup_mem SAE.symbol _ ?_ ?_ a.states sym st hmem hsym
    (fun w hw hwk => List.inj_on_of_nodup_map hnd hw hmem (by rw [hwk, hsym]))
  · intro m v k' hkv
    simp only [hkv]
  · intro m v hkv
    simp only [hkv]

/-- `id_state_map` lookup: with pairwise-distinct oids, a state's oid maps
to that state. -/
theorem id_state_map_lookup (a : StateAlphabet) (st : SAE)
    (hmem : st ∈ a.states) (hnd : (a.states.map SAE.oid).Nodup) :
    (id_state_map a).lookup st.oid = some st := by
  refine foldl_insert_lookup_mem (fun s : SAE => some s.oid) _ ?_ ?_ a.states
    st.oid st hmem rfl
    (fun w hw hwk => List.inj_on_of_nodup_map hnd hw hmem (by
      have := Option.some.inj hwk
      rw [this]))
  · intro m v k' hkv
    rw [← Option.some.inj hkv]
  · intro m v hkv
    simp at hkv

/-- `id_chartype_map` lookup: with pairwise-distinct column oids, a
column's oid maps to that column. -/
theorem id_chartype_map_lookup (cts : List CharacterType) (ct : CharacterType)
    (hmem : ct ∈ cts) (hnd : (cts.map CharacterType.oid).Nodup) :
    (id_chartype_map cts).lookup ct.oid = some ct := by
  refine foldl_insert_lookup_mem (fun c : CharacterType => some c.oid) _ ?_ ?_ cts
    ct.oid ct hmem rfl
    (fun w hw hwk => List.inj_on_of_nodup_map hnd hw hmem (by
      have := Option.some.inj hwk
      rw [this]))
  · intro m v k' hkv
    rw [← Option.some.inj hkv]
  · intro m v hkv
    simp at hkv

/-! ### Alphabet round trip -/

theorem compose_state_elem_tag (s : SAE) :
    (compose_state_elem s).tag = s.multistate := rfl

theorem write_states_filter (a : StateAlphabet) (k : Multistate) :
    (write_states_elem a).stateElems.filter (fun e => decide (e.tag = k))
      = (a.states.filter fun s => decide (s.multistate = k)).map compose_state_elem := by
  have hseg : ∀ j : Multistate,
      ((a.states.filter fun s => decide (s.multistate = j)).map
        compose_state_elem).filter (fun e => decide (e.tag = k))
      = if j = k then
          (a.states.filter fun s => decide (s.multistate = k)).map compose_state_elem
        else [] := by
    intro j
    rw [List.filter_map]
    have : ((fun e : StateElemR => decide (e.tag = k)) ∘ compose_state_elem)
        = fun s : SAE => decide (s.multistate = k) := by
      funext s; rfl
    rw [this, List.filter_filter]
    by_cases hjk : j = k
    · subst hjk
      simp only [if_pos rfl]
      congr 1
      apply List.filter_congr
      intro s _
      simp [Bool.and_self]
    · rw [if_neg hjk]
      rw [List.filter_eq_nil_iff.mpr]
      · simp
      · intro s _
        by_cases h1 : s.multistate = k
        · by_cases h2 : s.multistate = j
          · exact absurd (h2 ▸ h1) hjk
          · simp [h2]
        · simp [h1]
  show List.filter _ (_ ++ _ ++ _) = _
  rw [List.filter_append, List.filter_append, hseg, hseg, hseg]
  cases k <;> simp

theorem parse_singles_roundtrip (a : StateAlphabet) (h : WFAlphabet a) :
    ((a.states.filter fun s => decide (s.multistate = Multistate.single)).map
        compose_state_elem).map
      (fun e => (⟨e.id?, e.label?, e.symbol?, e.token?, .single, []⟩ : SAE))
      = a.states.filter fun s => decide (s.multistate = Multistate.single) := by
  rw [List.map_map]
  have : ∀ s ∈ a.states.filter fun s => decide (s.multistate = Multistate.single),
      ((fun e : StateElemR => (⟨e.id?, e.label?, e.symbol?, e.token?, .single, []⟩ : SAE))
        ∘ compose_state_elem) s = id s := by
    intro s hs
    have hmem := (List.mem_filter.mp hs).1
    have hsingle : s.multistate = .single := of_decide_eq_true (List.mem_filter.mp hs).2
    obtain ⟨o, ho⟩ := Option.isSome_iff_exists.mp (h.st_oid_some s hmem)
    obtain ⟨sy, hsy⟩ := Option.isSome_iff_exists.mp (h.st_symbol_some s hmem)
    have hlab := h.st_label_none s hmem
    have htok := h.st_token_none s hmem
    have hmem0 := h.singles_no_members s hmem hsingle
    simp only [Function.comp_apply, compose_state_elem, hsingle, id_eq]
    cases s with
    | mk oid label symbol token multistate memberOids =>
      simp only at ho hsy hlab htok hmem0 hsingle
      subst ho hsy hlab htok hmem0 hsingle
      rfl
  rw [List.map_congr_left this, List.map_id]

theorem parse_members_roundtrip (base : List SAE) (mos : List (Option String))
    (hbase : ∀ s ∈ base, s.oid.isSome)
    (hres : ∀ mo ∈ mos, ∃ st ∈ base, st.oid = mo) :
    parse_multistate_members base (mos.map fun m => (⟨some (pyStrOpt m)⟩ : MemberElem))
      = .ok mos := by
  induction mos with
  | nil => rfl
  | cons mo rest ih =>
    obtain ⟨st, hstmem, hstoid⟩ := hres mo (by simp)
    obtain ⟨mid, hmid⟩ : ∃ mid, mo = some mid := by
      have := hbase st hstmem
      rw [hstoid] at this
      exact Option.isSome_iff_exists.mp this
    have hkey : (some (pyStrOpt mo) : Option String) = mo := by
      rw [hmid]; rfl
    simp only [List.map_cons, parse_multistate_members, get_state_by_oid, hkey]
    have hfind : (base.find? fun s => decide (s.oid = mo)).isSome := by
      rw [List.find?_isSome]
      exact ⟨st, hstmem, by simp [hstoid]⟩
    cases hf : base.find? fun s => decide (s.oid = mo) with
    | none => rw [hf] at hfind; simp at hfind
    | some st' =>
      have hdec := List.find?_some hf
      have hst' : st'.oid = mo := of_decide_eq_true hdec
      rw [ih (fun m hm => hres m (by simp [hm]))]
      simp [hst']

theorem append_multistates_roundtrip (kind : Multistate) (hk : kind ≠ .single) :
    ∀ (extra base : List SAE),
      (∀ s ∈ base, s.oid.isSome) →
      (∀ s ∈ extra, s.multistate = kind) →
      (∀ s ∈ extra, s.oid.isSome ∧ s.symbol.isSome ∧ s.label = none ∧ s.token = none) →
      resolvableChainB base extra = true →
      append_multistates kind base (extra.map compose_state_elem) = .ok (base ++ extra) := by
  intro extra
  induction extra with
  | nil =>
    intro base _ _ _ _
    simp [append_multistates]
  | cons s rest ih =>
    intro base hbase hkind hflds hchain
    simp only [resolvableChainB, Bool.and_eq_true] at hchain
    have hmembers : ∀ mo ∈ s.memberOids, ∃ st ∈ base, st.oid = mo := by
      intro mo hmo
      have := (List.all_eq_true.mp hchain.1) mo hmo
      obtain ⟨st, hst, hdec⟩ := List.any_eq_true.mp this
      exact ⟨st, hst, of_decide_eq_true hdec⟩
    have hsk : s.multistate = kind := hkind s (by simp)
    have hcomp : (compose_state_elem s).members
        = s.memberOids.map fun m => (⟨some (pyStrOpt m)⟩ : MemberElem) := by
      cases hms : s.multistate with
      | single => exact absurd (hsk ▸ hms) hk
      | ambiguous => simp [compose_state_elem, hms]
      | polymorphic => simp [compose_state_elem, hms]
    simp only [List.map_cons, append_multistates, hcomp,
      parse_members_roundtrip base s.memberOids hbase hmembers]
    have hs_eq : (⟨(compose_state_elem s).id?, (compose_state_elem s).label?,
        (compose_state_elem s).symbol?, (compose_state_elem s).token?, kind,
        s.memberOids⟩ : SAE) = s := by
      obtain ⟨ho, hsy, hlab, htok⟩ := hflds s (by simp)
      obtain ⟨o, hoo⟩ := Option.isSome_iff_exists.mp ho
      obtain ⟨sy, hsys⟩ := Option.isSome_iff_exists.mp hsy
      cases s with
      | mk oid label symbol token multistate memberOids =>
        simp only at hoo hsys hlab htok hsk
        subst hoo hsys hlab htok hsk
        simp [compose_state_elem, pyStrOpt]
    rw [hs_eq]
    have := ih (base ++ [s])
      (by intro x hx
          rcases List.mem_append.mp hx with h | h
          · exact hbase x h
          · simp at h; subst h; exact (hflds _ (by simp)).1)
      (fun x hx => hkind x (by simp [hx]))
      (fun x hx => hflds x (by simp [hx]))
      hchain.2
    rw [this]
    simp

theorem parse_write_alphabet (a : StateAlphabet) (h : WFAlphabet a) :
    parse_state_alphabet (write_states_elem a) = .ok (parsedAlph a) := by
  unfold parse_state_alphabet
  rw [write_states_filter a .single, write_states_filter a .ambiguous,
    write_states_filter a .polymorphic]
  rw [parse_singles_roundtrip a h]
  have hflds : ∀ (k : Multistate), ∀ s ∈ a.states.filter
      (fun s => decide (s.multistate = k)),
      s.oid.isSome ∧ s.symbol.isSome ∧ s.label = none ∧ s.token = none := by
    intro k s hs
    have hmem := (List.mem_filter.mp hs).1
    exact ⟨h.st_oid_some s hmem, h.st_symbol_some s hmem,
      h.st_label_none s hmem, h.st_token_none s hmem⟩
  have hamb := append_multistates_roundtrip .ambiguous (by simp)
    (a.states.filter fun s => decide (s.multistate = Multistate.ambiguous))
    (a.states.filter fun s => decide (s.multistate = Multistate.single))
    (by intro s hs; exact h.st_oid_some s (List.mem_filter.mp hs).1)
    (by intro s hs; exact of_decide_eq_true (List.mem_filter.mp hs).2)
    (hflds .ambiguous)
    h.amb_chain
  simp only [hamb]
  have hpoly := append_multistates_roundtrip .polymorphic (by simp)
    (a.states.filter fun s => decide (s.multistate = Multistate.polymorphic))
    ((a.states.filter fun s => decide (s.multistate = Multistate.single))
      ++ (a.states.filter fun s => decide (s.multistate = Multistate.ambiguous)))
    (by intro s hs
        rcases List.mem_append.mp hs with h' | h'
        · exact h.st_oid_some s (List.mem_filter.mp h').1
        · exact h.st_oid_some s (List.mem_filter.mp h').1)
    (by intro s hs; exact of_decide_eq_true (List.mem_filter.mp hs).2)
    (hflds .polymorphic)
    h.poly_chain
  simp only [hpoly]
  obtain ⟨o, ho⟩ := Option.isSome_iff_exists.mp h.oid_some
  simp [write_states_elem, parsedAlph, reorderStates, ho, pyStrOpt, h.label_none]

theorem reorderStates_perm (l : List SAE) : (reorderStates l).Perm l := by
  induction l with
  | nil => simp [reorderStates]
  | cons s rest ih =>
    unfold reorderStates at ih ⊢
    cases hm : s.multistate with
    | single =>
      simp only [List.filter_cons, hm, decide_eq_true_eq, if_true]
      rw [if_neg (show ¬(Multistate.single = Multistate.ambiguous) from by decide),
          if_neg (show ¬(Multistate.single = Multistate.polymorphic) from by decide)]
      exact (ih.cons s)
    | ambiguous =>
      simp only [List.filter_cons, hm, decide_eq_true_eq, if_true]
      rw [if_neg (show ¬(Multistate.ambiguous = Multistate.single) from by decide),
          if_neg (show ¬(Multistate.ambiguous = Multistate.polymorphic) from by decide)]
      refine List.Perm.trans ?_ (ih.cons s)
      have : (rest.filter fun s => decide (s.multistate = Multistate.single))
            ++ s :: (rest.filter fun s => decide (s.multistate = Multistate.ambiguous))
            ++ (rest.filter fun s => decide (s.multistate = Multistate.polymorphic))
          = (rest.filter fun s => decide (s.multistate = Multistate.single))
            ++ s :: ((rest.filter fun s => decide (s.multistate = Multistate.ambiguous))
            ++ (rest.filter fun s => decide (s.multistate = Multistate.polymorphic))) := by
        simp
      rw [this]
      have hp := @List.perm_middle SAE s
        (rest.filter fun s => decide (s.multistate = Multistate.single))
        ((rest.filter fun s => decide (s.multistate = Multistate.ambiguous))
          ++ (rest.filter fun s => decide (s.multistate = Multistate.polymorphic)))
      refine hp.trans ?_
      apply List.Perm.cons
      simp [List.append_assoc]
    | polymorphic =>
      simp only [List.filter_cons, hm, decide_eq_true_eq, if_true]
      rw [if_neg (show ¬(Multistate.polymorphic = Multistate.single) from by decide),
          if_neg (show ¬(Multistate.polymorphic = Multistate.ambiguous) from by decide)]
      refine List.Perm.trans ?_ (ih.cons s)
      have hp := @List.perm_middle SAE s
        ((rest.filter fun s => decide (s.multistate = Multistate.single))
          ++ (rest.filter fun s => decide (s.multistate = Multistate.ambiguous)))
        (rest.filter fun s => decide (s.multistate = Multistate.polymorphic))
      refine List.Perm.trans ?_ hp
      simp [List.append_assoc]

theorem parsedAlph_mem (a : StateAlphabet) (st : SAE) :
    st ∈ (parsedAlph a).states ↔ st ∈ a.states :=
  (reorderStates_perm a.states).mem_iff

theorem parsedAlph_symbol_lookup (a : StateAlphabet) (h : WFAlphabet a)
    (st : SAE) (sym : String) (hmem : st ∈ a.states) (hsym : st.symbol = some sym) :
    (symbol_state_map (parsedAlph a)).lookup sym = some st := by
  refine symbol_state_map_lookup (parsedAlph a) st sym
    ((parsedAlph_mem a st).mpr hmem) hsym ?_
  exact (((reorderStates_perm a.states).map SAE.symbol).nodup_iff).mpr h.symbols_nodup

theorem parsedAlph_id_lookup (a : StateAlphabet) (h : WFAlphabet a)
    (st : SAE) (hmem : st ∈ a.states) :
    (id_state_map (parsedAlph a)).lookup st.oid = some st := by
  refine id_state_map_lookup (parsedAlph a) st ((parsedAlph_mem a st).mpr hmem) ?_
  exact (((reorderStates_perm a.states).map SAE.oid).nodup_iff).mpr h.oids_nodup

/-! ### The writer's column-type pass on a single-alphabet matrix -/

theorem lookup_range_pairs {V : Type} (f : Nat → V) (n i : Nat) :
    Dict.lookup ((List.range n).map fun j => (j, f j)) i
      = if i < n then some (f i) else none := by
  induction n with
  | zero => simp [Dict.lookup]
  | succ n ih =>
    rw [List.range_succ, List.map_append, Dict.lookup_append, ih]
    by_cases h : i < n
    · simp [h, Nat.lt_succ_of_lt h]
    · by_cases h2 : i = n
      · subst h2
        simp [Dict.lookup, Nat.lt_irrefl, Nat.lt_succ_self]
      · have : ¬ i < n + 1 := by omega
        simp [Dict.lookup, h, h2, this]
        intro he
        exact absurd he.symm h2

theorem canonicalCts_mem (sa : StateAlphabet) (n : Nat) (ct : CharacterType) :
    ct ∈ canonicalCts sa n ↔ ∃ i, i < n ∧ ct = ⟨some ("c" ++ natStr i), some sa⟩ := by
  unfold canonicalCts
  simp only [List.mem_map, List.mem_range]
  constructor
  · rintro ⟨i, hi, rfl⟩; exact ⟨i, hi, rfl⟩
  · rintro ⟨i, hi, rfl⟩; exact ⟨i, hi, rfl⟩

theorem canonicalCts_not_mem_next (sa : StateAlphabet) (n : Nat) :
    (⟨some ("c" ++ natStr n), some sa⟩ : CharacterType) ∉ canonicalCts sa n := by
  rw [canonicalCts_mem]
  rintro ⟨i, hi, he⟩
  have : "c" ++ natStr n = "c" ++ natStr i := congrArg (fun ct : CharacterType => pyStrOpt ct.oid) he
  have := colOid_inj this
  omega

theorem canonical_lookup (sa : StateAlphabet) (n i : Nat) :
    Dict.lookup (canonicalAcc sa n).columnChartypeMap i
      = if i < n then some (⟨some ("c" ++ natStr i), some sa⟩ : CharacterType) else none := by
  exact lookup_range_pairs
    (fun j => (⟨some ("c" ++ natStr j), some sa⟩ : CharacterType)) n i

theorem canonical_insert_self (sa : StateAlphabet) (n i : Nat) (hi : i < n) :
    Dict.insert (canonicalAcc sa n).columnChartypeMap i
        (⟨some ("c" ++ natStr i), some sa⟩ : CharacterType)
      = (canonicalAcc sa n).columnChartypeMap :=
  Dict.insert_of_lookup_some _ (by rw [canonical_lookup sa n i]; simp [hi])

theorem canonical_extend (sa : StateAlphabet) (n : Nat) :
    chartype_register (canonicalAcc sa n) n ⟨some ("c" ++ natStr n), some sa⟩
      = canonicalAcc sa (n + 1) := by
  unfold chartype_register canonicalAcc
  have hcontains : (canonicalCts sa n).contains
      (⟨some ("c" ++ natStr n), some sa⟩ : CharacterType) = false := by
    rw [Bool.eq_false_iff]
    intro hc
    exact canonicalCts_not_mem_next sa n (List.elem_iff.mp hc)
  simp only [hcontains, ChartypeAcc.mk.injEq]
  refine ⟨?_, ?_⟩
  · rw [if_neg (by simp)]
    unfold canonicalCts
    rw [List.range_succ, List.map_append]
    rfl
  · rw [Dict.insert_of_lookup_none _ _ (by
      rw [show ((List.range n).map fun i =>
          ((i, ⟨some ("c" ++ natStr i), some sa⟩) : Nat × CharacterType))
          = (canonicalAcc sa n).columnChartypeMap from rfl]
      rw [canonical_lookup sa n n]
      simp)]
    rw [List.range_succ, List.map_append]
    rfl

theorem build_cells_canonical (m : DnaMatrix) (sa : StateAlphabet)
    (hsa : m.stateAlphabets = [sa]) (hd : m.defaultStateAlphabet = none)
    (taxon : TaxonRef) :
    ∀ (cells : List CharCell) (colIdx n : Nat), colIdx ≤ n →
      (∀ c ∈ cells, c.characterType = none) →
      build_chartypes_cells m taxon cells colIdx (canonicalAcc sa n)
        = .ok (canonicalAcc sa (max n (colIdx + cells.length))) := by
  intro cells
  induction cells with
  | nil =>
    intro colIdx n hle _
    simp only [build_chartypes_cells, List.length_nil]
    congr 1
    congr 1
    omega
  | cons c rest ih =>
    intro colIdx n hle hct
    by_cases hlt : colIdx < n
    · have hcached := canonical_lookup sa n colIdx
      rw [if_pos hlt] at hcached
      simp only [build_chartypes_cells, hcached]
      have hreg : chartype_register (canonicalAcc sa n) colIdx
          ⟨some ("c" ++ natStr colIdx), some sa⟩ = canonicalAcc sa n := by
        unfold chartype_register
        have hmem : (⟨some ("c" ++ natStr colIdx), some sa⟩ : CharacterType)
            ∈ canonicalCts sa n := (canonicalCts_mem sa n _).mpr ⟨colIdx, hlt, rfl⟩
        have hcontains : (canonicalCts sa n).contains
            (⟨some ("c" ++ natStr colIdx), some sa⟩ : CharacterType) = true :=
          List.elem_iff.mpr hmem
        have hproj : (canonicalAcc sa n).chartypesToAdd = canonicalCts sa n := rfl
        rw [hproj, hcontains, if_pos rfl, canonical_insert_self sa n colIdx hlt]
        exact rfl
      rw [hreg, ih (colIdx + 1) n (by omega) (fun x hx => hct x (by simp [hx]))]
      congr 1
      congr 1
      simp only [List.length_cons]
      omega
    · have hn : colIdx = n := by omega
      subst hn
      have hnone := canonical_lookup sa colIdx colIdx
      rw [if_neg (by omega)] at hnone
      simp only [build_chartypes_cells, hnone, hct c (by simp), hd, hsa,
        canonical_extend sa colIdx]
      rw [ih (colIdx + 1) (colIdx + 1) (by omega) (fun x hx => hct x (by simp [hx]))]
      congr 1
      congr 1
      simp only [List.length_cons]
      omega

theorem build_rows_canonical (m : DnaMatrix) (sa : StateAlphabet)
    (hsa : m.stateAlphabets = [sa]) (hd : m.defaultStateAlphabet = none) :
    ∀ (rows : List (TaxonRef × CharRow)) (n : Nat),
      (∀ p ∈ rows, ∀ c ∈ p.2.cells, c.characterType = none) →
      build_chartypes_rows m rows (canonicalAcc sa n)
        = .ok (canonicalAcc sa (rows.foldl (fun k p => max k p.2.cells.length) n)) := by
  intro rows
  induction rows with
  | nil => intro n _; rfl
  | cons p rest ih =>
    intro n hct
    simp only [build_chartypes_rows]
    have hcell := build_cells_canonical m sa hsa hd p.1 p.2.cells 0 n (by omega)
      (fun c hc => hct p (by simp) c hc)
    rw [show (0 : Nat) + p.2.cells.length = p.2.cells.length from by omega] at hcell
    simp only [hcell]
    rw [ih _ (fun q hq => hct q (by simp [hq]))]
    rfl

theorem build_chartypes_canonical (m : DnaMatrix) (sa : StateAlphabet)
    (hsa : m.stateAlphabets = [sa]) (hd : m.defaultStateAlphabet = none)
    (hct : ∀ p ∈ m.rows, ∀ c ∈ p.2.cells, c.characterType = none) :
    build_chartypes_rows m m.rows ⟨[], []⟩
      = .ok (canonicalAcc sa (maxRowLen m.rows)) := by
  have h0 : (⟨[], []⟩ : ChartypeAcc) = canonicalAcc sa 0 := rfl
  rw [h0, build_rows_canonical m sa hsa hd m.rows 0 hct]
  rfl

/-! ### The writer's row emission -/

theorem write_row_seq_symbols_ok (rowOid : Option String) :
    ∀ (cells : List CharCell) (cidx : Nat),
      (∀ c ∈ cells, c.value.symbol.isSome) →
      write_row_seq_symbols rowOid cells cidx
        = .ok (cells.map fun c => c.value.symbol.getD "") := by
  intro cells
  induction cells with
  | nil => intro cidx _; rfl
  | cons c rest ih =>
    intro cidx hsym
    obtain ⟨sym, hs⟩ := Option.isSome_iff_exists.mp (hsym c (by simp))
    simp only [write_row_seq_symbols, hs,
      ih (cidx + 1) (fun x hx => hsym x (by simp [hx])), List.map_cons,
      Option.getD_some]

theorem flatMap_map_toList (cells : List CharCell) :
    (cells.map fun c => c.value.symbol.getD "").flatMap String.toList
      = cells.flatMap cellSymChars := by
  induction cells with
  | nil => rfl
  | cons c rest ih =>
    simp only [List.map_cons, List.flatMap_cons, ih]
    rfl

theorem write_row_seq_ok (row : CharRow)
    (hsym : ∀ c ∈ row.cells, c.value.symbol.isSome) :
    write_row_seq row = .ok (String.mk (row.cells.flatMap cellSymChars)) := by
  simp only [write_row_seq, write_row_seq_symbols_ok row.oid row.cells 0 hsym,
    flatMap_map_toList]

theorem write_row_cells_ok (sa : StateAlphabet) (N : Nat) :
    ∀ (cells : List CharCell) (cidx : Nat), cidx + cells.length ≤ N →
      write_row_cells (canonicalAcc sa N).columnChartypeMap cells cidx
        = .ok (cellElemsFrom cells cidx) := by
  intro cells
  induction cells with
  | nil => intro cidx _; rfl
  | cons c rest ih =>
    intro cidx hle
    have hlt : cidx < N := by simp only [List.length_cons] at hle; omega
    have hlook := canonical_lookup sa N cidx
    rw [if_pos hlt] at hlook
    simp only [write_row_cells, hlook,
      ih (cidx + 1) (by simp only [List.length_cons] at hle; omega)]
    rfl

theorem write_rows_seq_ok (colMap : Dict Nat CharacterType) :
    ∀ (rows : List (TaxonRef × CharRow)),
      (∀ p ∈ rows, p.2.oid.isSome) →
      (∀ p ∈ rows, ∀ c ∈ p.2.cells, c.value.symbol.isSome) →
      write_rows true colMap rows
        = .ok (rows.map fun p =>
            (⟨p.2.oid, none, some (pyStrOpt p.1.oid),
              some (String.mk (p.2.cells.flatMap cellSymChars)), []⟩ : RowElemR)) := by
  intro rows
  induction rows with
  | nil => intro _ _; rfl
  | cons p rest ih =>
    intro hoid hsym
    obtain ⟨taxon, row⟩ := p
    obtain ⟨o, ho⟩ := Option.isSome_iff_exists.mp (hoid (taxon, row) (by simp))
    have ho' : row.oid = some o := ho
    simp only [write_rows, ho', if_true, write_row_seq_ok row (hsym (taxon, row) (by simp)),
      ih (fun q hq => hoid q (by simp [hq])) (fun q hq => hsym q (by simp [hq])),
      List.map_cons]

theorem write_rows_cells_ok (sa : StateAlphabet) (N : Nat) :
    ∀ (rows : List (TaxonRef × CharRow)),
      (∀ p ∈ rows, p.2.oid.isSome) →
      (∀ p ∈ rows, p.2.cells.length ≤ N) →
      write_rows false (canonicalAcc sa N).columnChartypeMap rows
        = .ok (rows.map fun p =>
            (⟨p.2.oid, none, some (pyStrOpt p.1.oid), none,
              cellElemsFrom p.2.cells 0⟩ : RowElemR)) := by
  intro rows
  induction rows with
  | nil => intro _ _; rfl
  | cons p rest ih =>
    intro hoid hlen
    obtain ⟨taxon, row⟩ := p
    obtain ⟨o, ho⟩ := Option.isSome_iff_exists.mp (hoid (taxon, row) (by simp))
    have ho' : row.oid = some o := ho
    have hcells := write_row_cells_ok sa N row.cells 0
      (by have := hlen (taxon, row) (by simp); simpa using this)
    simp only [write_rows, ho', hcells,
      ih (fun q hq => hoid q (by simp [hq])) (fun q hq => hlen q (by simp [hq])),
      List.map_cons]
    rw [if_neg (show ¬(false = true) from by simp)]

theorem foldl_max_le_init :
    ∀ (rows : List (TaxonRef × CharRow)) (n : Nat),
      n ≤ rows.foldl (fun k p => max k p.2.cells.length) n := by
  intro rows
  induction rows with
  | nil => intro n; exact Nat.le_refl n
  | cons p rest ih =>
    intro n
    rw [List.foldl_cons]
    exact le_trans (Nat.le_max_left _ _) (ih (max n p.2.cells.length))

theorem maxRowLen_le (rows : List (TaxonRef × CharRow)) :
    ∀ p ∈ rows, p.2.cells.length ≤ maxRowLen rows := by
  unfold maxRowLen
  suffices h : ∀ (n : Nat), ∀ p ∈ rows,
      p.2.cells.length ≤ rows.foldl (fun k p => max k p.2.cells.length) n from h 0
  induction rows with
  | nil => intro n p hp; cases hp
  | cons q rest ih =>
    intro n p hp
    rw [List.foldl_cons]
    rcases List.mem_cons.mp hp with h | h
    · subst h
      exact le_trans (Nat.le_max_right _ _) (foldl_max_le_init rest _)
    · exact ih (max n q.2.cells.length) p h

/-! ### The format block round trip -/

theorem write_char_elems_canonical (sa : StateAlphabet) (hne : sa.states ≠ [])
    (n : Nat) :
    write_char_elems (canonicalCts sa n)
      = (List.range n).map
          fun i => (⟨some ("c" ++ natStr i), some (pyStrOpt sa.oid)⟩ : CharElemR) := by
  unfold write_char_elems canonicalCts
  rw [List.map_map]
  apply List.map_congr_left
  intro i _
  have hne' : sa.states.isEmpty = false := by
    cases h : sa.states with
    | nil => exact absurd h hne
    | cons a l => rfl
  simp [hne', pyStrOpt]
  exact hne

theorem parse_format_chars_canonical (a : StateAlphabet) (o : String)
    (ho : a.oid = some o) :
    ∀ (l : List Nat),
      parse_format_chars [a] none
          (l.map fun i => (⟨some ("c" ++ natStr i), some o⟩ : CharElemR))
        = .ok (l.map fun i => (⟨some ("c" ++ natStr i), some a⟩ : CharacterType)) := by
  intro l
  induction l with
  | nil => rfl
  | cons i rest ih =>
    have hfind : List.find? (fun x : StateAlphabet => decide (x.oid = some o)) [a]
        = some a := by
      simp [List.find?, ho]
    simp only [List.map_cons, parse_format_chars, hfind, ih]

theorem parse_written_format (sa : StateAlphabet) (h : WFAlphabet sa) (n : Nat) :
    parse_characters_format [write_states_elem sa]
        (write_char_elems (canonicalCts sa n)) none
      = .ok ([parsedAlph sa], canonicalCts (parsedAlph sa) n) := by
  have halph : parse_alphabets [write_states_elem sa] = .ok [parsedAlph sa] := by
    simp only [parse_alphabets, parse_write_alphabet sa h]
  obtain ⟨o, ho⟩ := Option.isSome_iff_exists.mp h.oid_some
  have hpo : (parsedAlph sa).oid = some o := ho
  rw [write_char_elems_canonical sa h.states_ne n]
  have hfn : (fun i => (⟨some ("c" ++ natStr i), some (pyStrOpt sa.oid)⟩ : CharElemR))
      = fun i => (⟨some ("c" ++ natStr i), some o⟩ : CharElemR) := by
    funext i
    rw [ho]
    rfl
  rw [hfn]
  simp only [parse_characters_format, halph,
    parse_format_chars_canonical (parsedAlph sa) o hpo (List.range n)]
  rfl

/-! ### The matrix rows round trip -/

theorem canonicalCts_length (sa : StateAlphabet) (n : Nat) :
    (canonicalCts sa n).length = n := by
  simp [canonicalCts]

theorem canonicalCts_getq (sa : StateAlphabet) (n i : Nat) :
    (canonicalCts sa n).get? i
      = if i < n then some (⟨some ("c" ++ natStr i), some sa⟩ : CharacterType)
        else none := by
  unfold canonicalCts
  by_cases h : i < n
  · rw [if_pos h]
    rw [List.get?_eq_getElem?, List.getElem?_map, List.getElem?_range h]
    rfl
  · rw [if_neg h]
    rw [List.get?_eq_getElem?, List.getElem?_eq_none]
    simp only [List.length_map, List.length_range]
    omega

theorem findIdx_of_getq {V : Type} [DecidableEq V] :
    ∀ (l : List V) (k : Nat) (a : V),
      l.get? k = some a →
      (∀ j, j < k → l.get? j ≠ some a) →
      l.findIdx? (fun x => decide (x = a)) = some k := by
  intro l
  induction l with
  | nil => intro k a h _; simp at h
  | cons x xs ih =>
    intro k a hget hne
    cases k with
    | zero =>
      have hx : x = a := by simpa using hget
      subst hx
      simp [List.findIdx?_cons]
    | succ k =>
      have hx : ¬(x = a) := by
        intro hxa
        exact hne 0 (Nat.succ_pos k) (by simp [hxa])
      have hget' : xs.get? k = some a := by simpa using hget
      have hne' : ∀ j, j < k → xs.get? j ≠ some a := by
        intro j hj hc
        exact hne (j + 1) (by omega) (by simpa using hc)
      rw [List.findIdx?_cons]
      simp [hx, ih k a hget' hne']

theorem canonicalCts_findIdx (sa : StateAlphabet) (n k : Nat) (hk : k < n) :
    (canonicalCts sa n).findIdx?
        (fun x => decide (x = (⟨some ("c" ++ natStr k), some sa⟩ : CharacterType)))
      = some k := by
  apply findIdx_of_getq
  · rw [canonicalCts_getq, if_pos hk]
  · intro j hj hc
    rw [canonicalCts_getq, if_pos (lt_trans hj hk)] at hc
    have h1 := Option.some.inj hc
    have h2 : "c" ++ natStr j = "c" ++ natStr k :=
      congrArg (fun ct : CharacterType => pyStrOpt ct.oid) h1
    have := colOid_inj h2
    omega

theorem canonicalCts_oids_nodup (sa : StateAlphabet) (n : Nat) :
    ((canonicalCts sa n).map CharacterType.oid).Nodup := by
  unfold canonicalCts
  rw [List.map_map]
  refine List.Nodup.map ?_ (List.nodup_range n)
  intro i j hij
  have h2 : "c" ++ natStr i = "c" ++ natStr j :=
    Option.some.inj hij
  exact colOid_inj h2

theorem set_append_replicate (l : List (Option CharCell)) (c : CharCell) :
    (l ++ [none]).set l.length (some c) = l ++ [some c] := by
  induction l with
  | nil => rfl
  | cons x xs ih =>
    simp only [List.cons_append, List.length_cons, List.set_cons_succ, ih]

theorem set_cell_at_length (l : List (Option CharCell)) (c : CharCell) :
    set_cell_by_index l l.length c = l ++ [some c] := by
  unfold set_cell_by_index
  rw [if_pos (Nat.le_refl _)]
  have h1 : l.length + 1 - l.length = 1 := by omega
  rw [h1]
  exact set_append_replicate l c

theorem strip_flatMap (sa : StateAlphabet) (h : WFAlphabet sa)
    (cells : List CharCell) (hmem : ∀ c ∈ cells, c.value ∈ sa.states) :
    stripSeqDiscrete (String.mk (cells.flatMap cellSymChars))
      = String.mk (cells.flatMap cellSymChars) := by
  unfold stripSeqDiscrete
  congr 1
  apply List.filter_eq_self.mpr
  intro ch hch
  obtain ⟨c, hc, hchc⟩ := List.mem_flatMap.mp hch
  exact (h.st_symbol_char _ (hmem c hc)).2 ch hchc

theorem seqCellsFrom_values (sa' : StateAlphabet) :
    ∀ (cells : List CharCell) (k : Nat),
      (seqCellsFrom sa' cells k).map (Option.map CharCell.value)
        = cells.map fun c => some c.value := by
  intro cells
  induction cells with
  | nil => intro k; rfl
  | cons c rest ih =>
    intro k
    simp [seqCellsFrom, ih (k + 1)]

theorem parse_seq_symbols_roundtrip (sa : StateAlphabet) (h : WFAlphabet sa)
    (mo ri tl : Option String) (s : String) (N : Nat) :
    ∀ (cells : List CharCell) (colIdx : Nat) (acc : List (Option CharCell)),
      colIdx + cells.length ≤ N →
      (∀ c ∈ cells, c.value ∈ sa.states) →
      parse_seq_symbols mo ri tl (canonicalCts (parsedAlph sa) N) s
          (cells.flatMap cellSymChars) colIdx acc
        = .ok (acc ++ seqCellsFrom (parsedAlph sa) cells colIdx) := by
  intro cells
  induction cells with
  | nil =>
    intro colIdx acc _ _
    simp [seqCellsFrom, parse_seq_symbols]
  | cons c rest ih =>
    intro colIdx acc hle hmem
    have hclt : colIdx < N := by simp only [List.length_cons] at hle; omega
    have hvmem := hmem c (by simp)
    obtain ⟨sym, hsym⟩ := Option.isSome_iff_exists.mp (h.st_symbol_some _ hvmem)
    have hchar := h.st_symbol_char _ hvmem
    rw [hsym] at hchar
    simp only [Option.getD_some] at hchar
    obtain ⟨ch, hch⟩ := List.length_eq_one.mp hchar.1
    have hsymch : cellSymChars c = [ch] := by
      unfold cellSymChars
      rw [hsym]
      simpa using hch
    have hflat : (c :: rest).flatMap cellSymChars
        = ch :: rest.flatMap cellSymChars := by
      rw [List.flatMap_cons, hsymch]
      rfl
    have hts : ch.toString = sym := by
      cases sym with
      | mk data =>
        have hd : data = [ch] := hch
        rw [hd]
        rfl
    have hget := canonicalCts_getq (parsedAlph sa) N colIdx
    rw [if_pos hclt] at hget
    have hlook : (symbol_state_map (parsedAlph sa)).lookup ch.toString
        = some c.value := by
      rw [hts]
      exact parsedAlph_symbol_lookup sa h c.value sym hvmem hsym
    have hbound : ¬((canonicalCts (parsedAlph sa) N).length ≤ colIdx) := by
      rw [canonicalCts_length]
      omega
    rw [hflat]
    simp only [parse_seq_symbols, hget, hlook]
    rw [if_neg hbound]
    have hassoc : acc ++ seqCellsFrom (parsedAlph sa) (c :: rest) colIdx
        = (acc ++ [some ⟨c.value, some ⟨some ("c" ++ natStr colIdx),
            some (parsedAlph sa)⟩⟩])
          ++ seqCellsFrom (parsedAlph sa) rest (colIdx + 1) := by
      simp [seqCellsFrom]
    rw [hassoc]
    exact ih (colIdx + 1) _ (by simp only [List.length_cons] at hle; omega)
      (fun x hx => hmem x (by simp [hx]))

theorem parse_cells_roundtrip (sa : StateAlphabet) (h : WFAlphabet sa)
    (mo ri tl : Option String) (N : Nat) :
    ∀ (cells : List CharCell) (k : Nat) (acc : List (Option CharCell)),
      acc.length = k → k + cells.length ≤ N →
      (∀ c ∈ cells, c.value ∈ sa.states) →
      parse_cells mo ri tl (id_chartype_map (canonicalCts (parsedAlph sa) N))
          (canonicalCts (parsedAlph sa) N) (cellElemsFrom cells k) acc
        = .ok (acc ++ seqCellsFrom (parsedAlph sa) cells k) := by
  intro cells
  induction cells with
  | nil =>
    intro k acc _ _ _
    simp [seqCellsFrom, cellElemsFrom, parse_cells]
  | cons c rest ih =>
    intro k acc hlen hle hmem
    have hklt : k < N := by simp only [List.length_cons] at hle; omega
    have hvmem := hmem c (by simp)
    obtain ⟨o, ho⟩ := Option.isSome_iff_exists.mp (h.st_oid_some _ hvmem)
    have hctmem : (⟨some ("c" ++ natStr k), some (parsedAlph sa)⟩ : CharacterType)
        ∈ canonicalCts (parsedAlph sa) N :=
      (canonicalCts_mem (parsedAlph sa) N _).mpr ⟨k, hklt, rfl⟩
    have hidct : (id_chartype_map (canonicalCts (parsedAlph sa) N)).lookup
          (some ("c" ++ natStr k))
        = some (⟨some ("c" ++ natStr k), some (parsedAlph sa)⟩ : CharacterType) :=
      id_chartype_map_lookup _ _ hctmem (canonicalCts_oids_nodup (parsedAlph sa) N)
    have hfind := canonicalCts_findIdx (parsedAlph sa) N k hklt
    have hstate : (id_state_map (parsedAlph sa)).lookup (some (pyStrOpt c.value.oid))
        = some c.value := by
      have hkey : (some (pyStrOpt c.value.oid) : Option String) = c.value.oid := by
        rw [ho]
        rfl
      rw [hkey]
      exact parsedAlph_id_lookup sa h c.value hvmem
    have hset : set_cell_by_index acc k
          (⟨c.value, some ⟨some ("c" ++ natStr k), some (parsedAlph sa)⟩⟩ : CharCell)
        = acc ++ [some ⟨c.value, some ⟨some ("c" ++ natStr k), some (parsedAlph sa)⟩⟩] := by
      rw [← hlen]
      exact set_cell_at_length acc _
    simp only [cellElemsFrom, parse_cells, hidct, hfind, hstate, hset]
    have hassoc : acc ++ seqCellsFrom (parsedAlph sa) (c :: rest) k
        = (acc ++ [some ⟨c.value, some ⟨some ("c" ++ natStr k),
            some (parsedAlph sa)⟩⟩])
          ++ seqCellsFrom (parsedAlph sa) rest (k + 1) := by
      simp [seqCellsFrom]
    rw [hassoc]
    exact ih (k + 1) _ (by simp [hlen]) (by simp only [List.length_cons] at hle; omega)
      (fun x hx => hmem x (by simp [hx]))

theorem parse_one_row_seq (sa : StateAlphabet) (h : WFAlphabet sa)
    (tset : List TaxonRef) (tm : Bool) (mo ml : Option String) (taxaId : String)
    (N : Nat) (idMap : Dict (Option String) CharacterType)
    (cts : List CharacterType) (taxon : TaxonRef) (row : CharRow)
    (hfound : tset.find? (fun t => decide (t.oid = taxon.oid)) = some taxon)
    (htoid : taxon.oid.isSome)
    (hlen : row.cells.length ≤ N)
    (hmem : ∀ c ∈ row.cells, c.value ∈ sa.states) :
    parse_one_row tset tm mo ml taxaId true (canonicalCts (parsedAlph sa) N)
        idMap cts
        ⟨row.oid, none, some (pyStrOpt taxon.oid),
         some (String.mk (row.cells.flatMap cellSymChars)), []⟩
      = .ok (taxon, seqCellsFrom (parsedAlph sa) row.cells 0) := by
  obtain ⟨to_, hto⟩ := Option.isSome_iff_exists.mp htoid
  have hkey : (some (pyStrOpt taxon.oid) : Option String) = taxon.oid := by
    rw [hto]
    rfl
  have hreq : require_taxon_ref tset tm (some (pyStrOpt taxon.oid)) = .ok taxon := by
    unfold require_taxon_ref
    rw [hkey, hfound]
  have hstrip := strip_flatMap sa h row.cells hmem
  have hparse := parse_seq_symbols_roundtrip sa h mo row.oid taxon.label
    (String.mk (row.cells.flatMap cellSymChars)) N row.cells 0 []
    (by omega) hmem
  simp only [parse_one_row, hreq, if_true, hstrip]
  have htl : (String.mk (row.cells.flatMap cellSymChars)).toList
      = row.cells.flatMap cellSymChars := rfl
  rw [htl]
  simp only [hparse, List.nil_append]

theorem parse_one_row_cells (sa : StateAlphabet) (h : WFAlphabet sa)
    (tset : List TaxonRef) (tm : Bool) (mo ml : Option String) (taxaId : String)
    (N : Nat) (taxon : TaxonRef) (row : CharRow)
    (hfound : tset.find? (fun t => decide (t.oid = taxon.oid)) = some taxon)
    (htoid : taxon.oid.isSome)
    (hlen : row.cells.length ≤ N)
    (hmem : ∀ c ∈ row.cells, c.value ∈ sa.states) :
    parse_one_row tset tm mo ml taxaId false (canonicalCts (parsedAlph sa) N)
        (id_chartype_map (canonicalCts (parsedAlph sa) N))
        (canonicalCts (parsedAlph sa) N)
        ⟨row.oid, none, some (pyStrOpt taxon.oid), none, cellElemsFrom row.cells 0⟩
      = .ok (taxon, seqCellsFrom (parsedAlph sa) row.cells 0) := by
  obtain ⟨to_, hto⟩ := Option.isSome_iff_exists.mp htoid
  have hkey : (some (pyStrOpt taxon.oid) : Option String) = taxon.oid := by
    rw [hto]
    rfl
  have hreq : require_taxon_ref tset tm (some (pyStrOpt taxon.oid)) = .ok taxon := by
    unfold require_taxon_ref
    rw [hkey, hfound]
  have hparse := parse_cells_roundtrip sa h mo row.oid taxon.label N row.cells 0 []
    rfl (by omega) hmem
  simp only [parse_one_row, hreq]
  rw [if_neg (show ¬(false = true) from by simp)]
  simp only [hparse, List.nil_append]

theorem parse_rows_seq_roundtrip (sa : StateAlphabet) (h : WFAlphabet sa)
    (tset : List TaxonRef) (tm : Bool) (mo ml : Option String) (taxaId : String)
    (N : Nat) (idMap : Dict (Option String) CharacterType)
    (cts : List CharacterType) :
    ∀ (rows : List (TaxonRef × CharRow))
      (acc : Dict TaxonRef (List (Option CharCell))),
      (∀ p ∈ rows, tset.find? (fun t => decide (t.oid = p.1.oid)) = some p.1) →
      (∀ p ∈ rows, p.1.oid.isSome) →
      (∀ p ∈ rows, p.2.cells.length ≤ N) →
      (∀ p ∈ rows, ∀ c ∈ p.2.cells, c.value ∈ sa.states) →
      (rows.map fun p => p.1.oid).Nodup →
      (∀ p ∈ rows, Dict.lookup acc p.1 = none) →
      parse_rows tset tm mo ml taxaId true (canonicalCts (parsedAlph sa) N)
          idMap cts
          (rows.map fun p =>
            (⟨p.2.oid, none, some (pyStrOpt p.1.oid),
              some (String.mk (p.2.cells.flatMap cellSymChars)), []⟩ : RowElemR))
          acc
        = .ok (acc ++ rows.map fun p =>
            (p.1, seqCellsFrom (parsedAlph sa) p.2.cells 0)) := by
  intro rows
  induction rows with
  | nil => intro acc _ _ _ _ _ _; simp [parse_rows]
  | cons p rest ih =>
    intro acc hfound htoid hlen hmem hnd hfresh
    obtain ⟨taxon, row⟩ := p
    have hrow := parse_one_row_seq sa h tset tm mo ml taxaId N idMap cts taxon row
      (hfound (taxon, row) (by simp)) (htoid (taxon, row) (by simp))
      (hlen (taxon, row) (by simp)) (hmem (taxon, row) (by simp))
    simp only [List.map_cons, parse_rows, hrow]
    have hins : Dict.insert acc taxon (seqCellsFrom (parsedAlph sa) row.cells 0)
        = acc ++ [(taxon, seqCellsFrom (parsedAlph sa) row.cells 0)] :=
      Dict.insert_of_lookup_none acc _ (hfresh (taxon, row) (by simp))
    rw [hins]
    rw [List.map_cons] at hnd
    have hnd2 := (List.nodup_cons.mp hnd).2
    have hhead := (List.nodup_cons.mp hnd).1
    rw [ih (acc ++ [(taxon, seqCellsFrom (parsedAlph sa) row.cells 0)])
      (fun q hq => hfound q (by simp [hq])) (fun q hq => htoid q (by simp [hq]))
      (fun q hq => hlen q (by simp [hq])) (fun q hq => hmem q (by simp [hq]))
      hnd2
      ?_]
    · simp
    · intro q hq
      rw [Dict.lookup_append, hfresh q (by simp [hq])]
      have hqn : q.1.oid ≠ taxon.oid := by
        intro he
        exact hhead (he ▸ List.mem_map_of_mem (fun p => p.1.oid) hq)
      have hqt : ¬(taxon = q.1) := fun he => hqn (by rw [he])
      simp [Dict.lookup, hqt]

theorem parse_rows_cells_roundtrip (sa : StateAlphabet) (h : WFAlphabet sa)
    (tset : List TaxonRef) (tm : Bool) (mo ml : Option String) (taxaId : String)
    (N : Nat) :
    ∀ (rows : List (TaxonRef × CharRow))
      (acc : Dict TaxonRef (List (Option CharCell))),
      (∀ p ∈ rows, tset.find? (fun t => decide (t.oid = p.1.oid)) = some p.1) →
      (∀ p ∈ rows, p.1.oid.isSome) →
      (∀ p ∈ rows, p.2.cells.length ≤ N) →
      (∀ p ∈ rows, ∀ c ∈ p.2.cells, c.value ∈ sa.states) →
      (rows.map fun p => p.1.oid).Nodup →
      (∀ p ∈ rows, Dict.lookup acc p.1 = none) →
      parse_rows tset tm mo ml taxaId false (canonicalCts (parsedAlph sa) N)
          (id_chartype_map (canonicalCts (parsedAlph sa) N))
          (canonicalCts (parsedAlph sa) N)
          (rows.map fun p =>
            (⟨p.2.oid, none, some (pyStrOpt p.1.oid), none,
              cellElemsFrom p.2.cells 0⟩ : RowElemR))
          acc
        = .ok (acc ++ rows.map fun p =>
            (p.1, seqCellsFrom (parsedAlph sa) p.2.cells 0)) := by
  intro rows
  induction rows with
  | nil => intro acc _ _ _ _ _ _; simp [parse_rows]
  | cons p rest ih =>
    intro acc hfound htoid hlen hmem hnd hfresh
    obtain ⟨taxon, row⟩ := p
    have hrow := parse_one_row_cells sa h tset tm mo ml taxaId N taxon row
      (hfound (taxon, row) (by simp)) (htoid (taxon, row) (by simp))
      (hlen (taxon, row) (by simp)) (hmem (taxon, row) (by simp))
    simp only [List.map_cons, parse_rows, hrow]
    have hins : Dict.insert acc taxon (seqCellsFrom (parsedAlph sa) row.cells 0)
        = acc ++ [(taxon, seqCellsFrom (parsedAlph sa) row.cells 0)] :=
      Dict.insert_of_lookup_none acc _ (hfresh (taxon, row) (by simp))
    rw [hins]
    rw [List.map_cons] at hnd
    have hnd2 := (List.nodup_cons.mp hnd).2
    have hhead := (List.nodup_cons.mp hnd).1
    rw [ih (acc ++ [(taxon, seqCellsFrom (parsedAlph sa) row.cells 0)])
      (fun q hq => hfound q (by simp [hq])) (fun q hq => htoid q (by simp [hq]))
      (fun q hq => hlen q (by simp [hq])) (fun q hq => hmem q (by simp [hq]))
      hnd2
      ?_]
    · simp
    · intro q hq
      rw [Dict.lookup_append, hfresh q (by simp [hq])]
      have hqn : q.1.oid ≠ taxon.oid := by
        intro he
        exact hhead (he ▸ List.mem_map_of_mem (fun p => p.1.oid) hq)
      have hqt : ¬(taxon = q.1) := fun he => hqn (by rw [he])
      simp [Dict.lookup, hqt]

theorem parsedMapping_of_rows (sa' : StateAlphabet) (mo ml : Option String)
    (alphs : List StateAlphabet) (cts : List CharacterType) (mflag : Bool)
    (rows : List (TaxonRef × CharRow)) :
    parsedMapping ⟨mo, ml, alphs, cts, mflag,
        rows.map fun p => (p.1, seqCellsFrom sa' p.2.cells 0)⟩
      = rows.map fun p => (p.1, p.2.cells.map fun c => some c.value) := by
  unfold parsedMapping
  rw [List.map_map]
  apply List.map_congr_left
  intro p _
  simp [seqCellsFrom_values]

/-- C3: for every well-formed DNA character matrix (spec §3 invariants:
mandatory ids, one state alphabet, single-character non-whitespace symbols,
distinct ids/symbols, resolvable member references, cells drawn from the
alphabet), in sequence markup and in explicit cell markup alike, writing the
matrix with the NEXML writer and parsing the result back yields the same
taxon-to-row cell-value mapping as the original matrix. -/
theorem dna_roundtrip (m : DnaMatrix) (sa : StateAlphabet) (tset : List TaxonRef)
    (h : WFDna m sa tset) :
    ∃ (elem : CharsElemR) (pm : ParsedCharMatrix),
      write_char_matrix m = .ok elem
        ∧ parse_char_matrix_dna elem [(m.taxonSetOid, tset)] true = .ok pm
        ∧ parsedMapping pm = dnaMapping m := by
  obtain ⟨o, ho⟩ := Option.isSome_iff_exists.mp h.oid_some
  have hbuild := build_chartypes_canonical m sa h.alph h.default_none h.cell_ct_none
  have hproj : (canonicalAcc sa (maxRowLen m.rows)).chartypesToAdd
      = canonicalCts sa (maxRowLen m.rows) := rfl
  have hifid : (if (canonicalCts (parsedAlph sa) (maxRowLen m.rows)).isEmpty then
        ([] : Dict (Option String) CharacterType)
      else id_chartype_map (canonicalCts (parsedAlph sa) (maxRowLen m.rows)))
      = id_chartype_map (canonicalCts (parsedAlph sa) (maxRowLen m.rows)) := by
    cases he : (canonicalCts (parsedAlph sa) (maxRowLen m.rows)).isEmpty with
    | false => rw [if_neg (by simp)]
    | true =>
      rw [if_pos rfl, List.isEmpty_iff.mp he]
      rfl
  have hifct : (if (canonicalCts (parsedAlph sa) (maxRowLen m.rows)).isEmpty then
        ([] : List CharacterType)
      else canonicalCts (parsedAlph sa) (maxRowLen m.rows))
      = canonicalCts (parsedAlph sa) (maxRowLen m.rows) := by
    cases he : (canonicalCts (parsedAlph sa) (maxRowLen m.rows)).isEmpty with
    | false => rw [if_neg (by simp)]
    | true => rw [if_pos rfl, List.isEmpty_iff.mp he]
  have hfmt := parse_written_format sa h.wfa (maxRowLen m.rows)
  have hlk : Dict.lookup [(m.taxonSetOid, tset)] m.taxonSetOid = some tset := by
    simp [Dict.lookup]
  cases hmflag : m.markupAsSequences with
  | true =>
    have hsym : ∀ p ∈ m.rows, ∀ c ∈ p.2.cells, c.value.symbol.isSome :=
      fun p hp c hc => h.wfa.st_symbol_some _ (h.cell_value_mem p hp c hc)
    have hrows := write_rows_seq_ok
      (canonicalAcc sa (maxRowLen m.rows)).columnChartypeMap m.rows
      h.row_oid_some hsym
    have hwrite : write_char_matrix m = .ok
        ⟨some ("nex:Dna" ++ "Seqs"), m.oid, writeLabel m.label,
         some m.taxonSetOid, true, [write_states_elem sa],
         write_char_elems (canonicalCts sa (maxRowLen m.rows)), true,
         m.rows.map fun p =>
           ⟨p.2.oid, none, some (pyStrOpt p.1.oid),
            some (String.mk (p.2.cells.flatMap cellSymChars)), []⟩⟩ := by
      simp only [write_char_matrix, ho, hmflag, if_true, hbuild, hproj, h.alph,
        List.map_cons, List.map_nil, hrows, List.isEmpty_cons, Bool.false_and,
        Bool.not_false]
    have hsw : strStartsWith ("nex:Dna" ++ "Seqs") "nex:Dna" = true := by decide
    have hse : strEndsWith ("nex:Dna" ++ "Seqs") "Seqs" = true := by decide
    have hpr := parse_rows_seq_roundtrip sa h.wfa tset true m.oid
      (writeLabel m.label) m.taxonSetOid (maxRowLen m.rows)
      (if (canonicalCts (parsedAlph sa) (maxRowLen m.rows)).isEmpty then []
        else id_chartype_map (canonicalCts (parsedAlph sa) (maxRowLen m.rows)))
      (if (canonicalCts (parsedAlph sa) (maxRowLen m.rows)).isEmpty then []
        else canonicalCts (parsedAlph sa) (maxRowLen m.rows))
      m.rows [] h.taxa_found h.taxon_oid_some (maxRowLen_le m.rows)
      h.cell_value_mem h.taxa_nodup (fun _ _ => rfl)
    have hparse : parse_char_matrix_dna
        (⟨some ("nex:Dna" ++ "Seqs"), m.oid, writeLabel m.label,
          some m.taxonSetOid, true, [write_states_elem sa],
          write_char_elems (canonicalCts sa (maxRowLen m.rows)), true,
          m.rows.map fun p =>
            (⟨p.2.oid, none, some (pyStrOpt p.1.oid),
              some (String.mk (p.2.cells.flatMap cellSymChars)), []⟩ : RowElemR)⟩)
        [(m.taxonSetOid, tset)] true
        = .ok ⟨m.oid, writeLabel m.label, [parsedAlph sa],
            canonicalCts (parsedAlph sa) (maxRowLen m.rows), true,
            m.rows.map fun p => (p.1, seqCellsFrom (parsedAlph sa) p.2.cells 0)⟩ := by
      simp only [parse_char_matrix_dna, hsw, Bool.not_true, hlk, if_true, hfmt,
        hse, hpr, List.nil_append]
      rw [if_neg (show ¬(false = true) from by simp)]
      rw [if_neg (show ¬(false = true) from by simp)]
    refine ⟨_, _, hwrite, hparse, ?_⟩
    unfold dnaMapping
    exact parsedMapping_of_rows (parsedAlph sa) m.oid (writeLabel m.label)
      [parsedAlph sa] (canonicalCts (parsedAlph sa) (maxRowLen m.rows)) true m.rows
  | false =>
    have hrows := write_rows_cells_ok sa (maxRowLen m.rows) m.rows
      h.row_oid_some (maxRowLen_le m.rows)
    have hwrite : write_char_matrix m = .ok
        ⟨some ("nex:Dna" ++ "Cells"), m.oid, writeLabel m.label,
         some m.taxonSetOid, true, [write_states_elem sa],
         write_char_elems (canonicalCts sa (maxRowLen m.rows)), true,
         m.rows.map fun p =>
           ⟨p.2.oid, none, some (pyStrOpt p.1.oid), none,
            cellElemsFrom p.2.cells 0⟩⟩ := by
      simp only [write_char_matrix, ho, hmflag, hbuild, hproj, h.alph,
        List.map_cons, List.map_nil, hrows, List.isEmpty_cons, Bool.false_and,
        Bool.not_false]
      rw [if_neg (show ¬(false = true) from by simp)]
    have hsw : strStartsWith ("nex:Dna" ++ "Cells") "nex:Dna" = true := by decide
    have hse : strEndsWith ("nex:Dna" ++ "Cells") "Seqs" = false := by decide
    have hpr := parse_rows_cells_roundtrip sa h.wfa tset true m.oid
      (writeLabel m.label) m.taxonSetOid (maxRowLen m.rows)
      m.rows [] h.taxa_found h.taxon_oid_some (maxRowLen_le m.rows)
      h.cell_value_mem h.taxa_nodup (fun _ _ => rfl)
    have hparse : parse_char_matrix_dna
        (⟨some ("nex:Dna" ++ "Cells"), m.oid, writeLabel m.label,
          some m.taxonSetOid, true, [write_states_elem sa],
          write_char_elems (canonicalCts sa (maxRowLen m.rows)), true,
          m.rows.map fun p =>
            (⟨p.2.oid, none, some (pyStrOpt p.1.oid), none,
              cellElemsFrom p.2.cells 0⟩ : RowElemR)⟩)
        [(m.taxonSetOid, tset)] true
        = .ok ⟨m.oid, writeLabel m.label, [parsedAlph sa],
            canonicalCts (parsedAlph sa) (maxRowLen m.rows), false,
            m.rows.map fun p => (p.1, seqCellsFrom (parsedAlph sa) p.2.cells 0)⟩ := by
      simp only [parse_char_matrix_dna, hsw, Bool.not_true, hlk, if_true, hfmt,
        hse, hifid, hifct, hpr, List.nil_append]
      rw [if_neg (show ¬(false = true) from by simp)]
      rw [if_neg (show ¬(false = true) from by simp)]
    refine ⟨_, _, hwrite, hparse, ?_⟩
    unfold dnaMapping
    exact parsedMapping_of_rows (parsedAlph sa) m.oid (writeLabel m.label)
      [parsedAlph sa] (canonicalCts (parsedAlph sa) (maxRowLen m.rows)) false m.rows

/-- Witness for C3: the round trip holds at the concrete two-taxon matrices
`wMatSeq` (sequence markup) and `wMatCells` (cell markup), whose
well-formedness is checked by `decide`. -/
theorem dna_roundtrip_witness :
    (∃ (elem : CharsElemR) (pm : ParsedCharMatrix),
      write_char_matrix wMatSeq = .ok elem
        ∧ parse_char_matrix_dna elem [(wMatSeq.taxonSetOid, [wTax1, wTax2])] true
            = .ok pm
        ∧ parsedMapping pm = dnaMapping wMatSeq)
    ∧ (∃ (elem : CharsElemR) (pm : ParsedCharMatrix),
      write_char_matrix wMatCells = .ok elem
        ∧ parse_char_matrix_dna elem [(wMatCells.taxonSetOid, [wTax1, wTax2])] true
            = .ok pm
        ∧ parsedMapping pm = dnaMapping wMatCells) :=
  ⟨dna_roundtrip wMatSeq wAlph [wTax1, wTax2]
    ⟨by decide, by decide,
     ⟨by decide, by decide, by decide, by decide, by decide, by decide,
      by decide, by decide, by decide, by decide, by decide, by decide,
      by decide⟩,
     by decide, by decide, by decide, by decide, by decide, by decide,
     by decide⟩,
   dna_roundtrip wMatCells wAlph [wTax1, wTax2]
    ⟨by decide, by decide,
     ⟨by decide, by decide, by decide, by decide, by decide, by decide,
      by decide, by decide, by decide, by decide, by decide, by decide,
      by decide⟩,
     by decide, by decide, by decide, by decide, by decide, by decide,
     by decide⟩⟩

end DendroPy
